/-
Verification of the PepWorkday pipeline core: the Samsara enrichment engine
(`pepworkday-pipeline/core/samsara_enrichment.py`) and the Google Sheets
idempotent upsert synchronisation (`pepworkday-pipeline/integrations/google_sheets.py`).

The Python code manipulates pandas DataFrames.  The embedding models the
rows of those frames as explicit record types and the float cells as an
extended-rational value domain (`PVal`) that distinguishes NaN and the two
infinities, because pandas arithmetic (in particular division by zero)
produces IEEE infinities rather than errors.  `Option` models nullable
cells where no infinity can arise.  The models fix the standard column
configuration of the pipeline (the default `match_columns` mapping and the
standard Samsara column names): under that configuration every
`if col in df.columns` guard in the source is true, which is recorded in
comments at the relevant definitions.
-/
import Mathlib

namespace Pep

/-! ### Pandas float cells

A pandas float cell is NaN, `+inf`, `-inf` or a finite value; finite values
are modelled as rationals.  `toPVal` injects a nullable numeric cell
(`none` = NaN) into this domain. -/

inductive PVal where
  | nan : PVal
  | pinf : PVal
  | ninf : PVal
  | num : ℚ → PVal
deriving DecidableEq

def toPVal : Option ℚ → PVal
  | none => .nan
  | some q => .num q

/-- Pandas subtraction on float cells (IEEE semantics). -/
def psub : PVal → PVal → PVal
  | .nan, _ => .nan
  | .pinf, .nan => .nan
  | .ninf, .nan => .nan
  | .num _, .nan => .nan
  | .num a, .num b => .num (a - b)
  | .pinf, .num _ => .pinf
  | .ninf, .num _ => .ninf
  | .num _, .pinf => .ninf
  | .num _, .ninf => .pinf
  | .pinf, .pinf => .nan
  | .pinf, .ninf => .pinf
  | .ninf, .pinf => .ninf
  | .ninf, .ninf => .nan

/-- Pandas addition on float cells (IEEE semantics). -/
def padd : PVal → PVal → PVal
  | .nan, _ => .nan
  | .pinf, .nan => .nan
  | .ninf, .nan => .nan
  | .num _, .nan => .nan
  | .num a, .num b => .num (a + b)
  | .pinf, .num _ => .pinf
  | .ninf, .num _ => .ninf
  | .num _, .pinf => .pinf
  | .num _, .ninf => .ninf
  | .pinf, .pinf => .pinf
  | .pinf, .ninf => .nan
  | .ninf, .pinf => .nan
  | .ninf, .ninf => .ninf

/-- Pandas division on float cells.  Division of a finite nonzero value by
zero yields a signed infinity, `0/0` yields NaN: this is exactly what a
pandas Series division does (it warns but does not raise). -/
def pdiv : PVal → PVal → PVal
  | .nan, _ => .nan
  | .pinf, .nan => .nan
  | .ninf, .nan => .nan
  | .num _, .nan => .nan
  | .num a, .num b =>
      if b = 0 then (if 0 < a then .pinf else if a < 0 then .ninf else .nan)
      else .num (a / b)
  | .pinf, .num b => if b < 0 then .ninf else .pinf
  | .ninf, .num b => if b < 0 then .pinf else .ninf
  | .num _, .pinf => .num 0
  | .num _, .ninf => .num 0
  | .pinf, .pinf => .nan
  | .pinf, .ninf => .nan
  | .ninf, .pinf => .nan
  | .ninf, .ninf => .nan

/-- Multiplication of a float cell by a positive finite constant (the source
only multiplies by the literals `100` and `60`). -/
def pmulC : PVal → ℚ → PVal
  | .nan, _ => .nan
  | .pinf, c => if 0 < c then .pinf else if c < 0 then .ninf else .nan
  | .ninf, c => if 0 < c then .ninf else if c < 0 then .pinf else .nan
  | .num a, c => .num (a * c)

/-- Rounding of a rational to the nearest integer, ties to even: the rounding
mode of numpy/pandas `.round`. -/
def roundHalfEven (x : ℚ) : ℤ :=
  let f : ℤ := Int.floor x
  let frac : ℚ := x - f
  if frac < 1/2 then f
  else if 1/2 < frac then f + 1
  else if Even f then f else f + 1

/-- `Series.round(2)`: rounds finite cells to two decimals, fixes NaN and the
infinities. -/
def round2 : PVal → PVal
  | .num q => .num ((roundHalfEven (q * 100) : ℚ) / 100)
  | v => v

/-! ### Row types

`DispatchRow` is a dispatch-side row after `_prepare_dispatch_for_matching`:
the original columns (of which the model keeps `planned_miles` and
`planned_stops`, the two consumed by `_calculate_derived_metrics`, plus an
opaque bag of remaining fields) together with the added `_normalized_driver`
and `_normalized_date` columns.  `_normalized_driver` is produced by
`.astype(str).str.lower().str.strip()`, so it is a string and never NaN
(`pd.notna` on it is always true); `_normalized_date` is produced by
`pd.to_datetime(errors='coerce')` and may be NaT (`none`).  Dates are
modelled as integer day numbers. -/

structure DispatchRow where
  planned_miles : Option ℚ
  planned_stops : Option ℚ
  extra : List (String × String)
  normalized_driver : String
  normalized_date : Option ℤ
deriving DecidableEq

/-- A Samsara-side row after `_preprocess_samsara_data` and
`_prepare_samsara_for_matching`: the four numeric telemetry columns (NaN
possible: `pd.to_numeric(errors='coerce')` nulls non-numeric cells and does
not drop them) plus the normalized join keys. -/
structure SamsaraRow where
  total_miles : Option ℚ
  idle_time : Option ℚ
  stops_count : Option ℚ
  fuel_used : Option ℚ
  normalized_driver : String
  normalized_date : Option ℤ
deriving DecidableEq

/-- Date-window test used by `_find_samsara_matches`:
`(matches['_normalized_date'] >= date_min) & (matches['_normalized_date'] <= date_max)`.
A NaT telemetry date compares false on both sides, hence is filtered out. -/
def dateWithin (sd : Option ℤ) (dmin dmax : ℤ) : Bool :=
  match sd with
  | none => false
  | some d => decide (dmin ≤ d) && decide (d ≤ dmax)

/-- `_find_samsara_matches`: filter the telemetry table to rows whose
normalized driver equals the dispatch row driver (the dispatch driver is a
string, so the `pd.notna(dispatch_driver)` guard in the source is always
true), then, when the dispatch `_normalized_date` is not NaT, to rows whose
date lies within `date_tolerance_days` of it on either side (inclusive).
When the dispatch date is NaT the date filter is skipped entirely. -/
def find_samsara_matches (dispatch_row : DispatchRow) (samsara_df : List SamsaraRow)
    (date_tolerance_days : ℤ) : List SamsaraRow :=
  let m1 := samsara_df.filter (fun s => s.normalized_driver == dispatch_row.normalized_driver)
  match dispatch_row.normalized_date with
  | none => m1
  | some dd =>
      m1.filter (fun s =>
        dateWithin s.normalized_date (dd - date_tolerance_days) (dd + date_tolerance_days))

/-- One output row of `_perform_enrichment_merge`: the dispatch row's fields
(`dispatch_row.to_dict()`) plus the seven `samsara_*` enrichment fields. -/
structure EnrichedRow where
  disp : DispatchRow
  samsara_total_miles : Option ℚ
  samsara_idle_time : Option ℚ
  samsara_stops_count : Option ℚ
  samsara_fuel_used : Option ℚ
  samsara_match_found : Bool
  samsara_match_date : Option ℤ
  samsara_match_driver : Option String
deriving DecidableEq

/-- The per-row body of the loop in `_perform_enrichment_merge`: find the
candidate set; if it is non-empty take its first row (`matches.iloc[0]`) as
the best match and copy its telemetry fields, otherwise fill every
telemetry-derived field with NaN/None and set the match flag false. -/
def enrich_one (dispatch_row : DispatchRow) (samsara_df : List SamsaraRow)
    (date_tolerance_days : ℤ) : EnrichedRow :=
  match find_samsara_matches dispatch_row samsara_df date_tolerance_days with
  | best_match :: _ =>
      { disp := dispatch_row
        samsara_total_miles := best_match.total_miles
        samsara_idle_time := best_match.idle_time
        samsara_stops_count := best_match.stops_count
        samsara_fuel_used := best_match.fuel_used
        samsara_match_found := true
        samsara_match_date := best_match.normalized_date
        samsara_match_driver := some best_match.normalized_driver }
  | [] =>
      { disp := dispatch_row
        samsara_total_miles := none
        samsara_idle_time := none
        samsara_stops_count := none
        samsara_fuel_used := none
        samsara_match_found := false
        samsara_match_date := none
        samsara_match_driver := none }

/-- `_perform_enrichment_merge`: one enriched record per dispatch row, in
the dispatch table's iteration order. -/
def perform_enrichment_merge (dispatch_df : List DispatchRow) (samsara_df : List SamsaraRow)
    (date_tolerance_days : ℤ) : List EnrichedRow :=
  dispatch_df.map (fun d => enrich_one d samsara_df date_tolerance_days)

/-- An enriched row together with the six columns added by
`_calculate_derived_metrics`. -/
structure MetricRow where
  er : EnrichedRow
  miles_variance : PVal
  miles_variance_percent : PVal
  stops_variance : PVal
  stops_variance_percent : PVal
  estimated_trip_hours : PVal
  idle_percentage : PVal
deriving DecidableEq

/-- `avg_speed_mph = 35  # Configurable assumption` -/
def avg_speed_mph : ℚ := 35

/-- The per-row content of `_calculate_derived_metrics`.  In the modelled
(standard) configuration the `planned_miles`, `planned_stops`,
`samsara_total_miles`, `samsara_stops_count` and `samsara_idle_time` columns
are all present, so all three `if ... in df.columns` blocks run.  The
variances are plain pandas column arithmetic; the percent columns divide by
the planned columns with no zero-guard and round the quotient. -/
def calculate_derived_row (r : EnrichedRow) : MetricRow :=
  let mv := psub (toPVal r.samsara_total_miles) (toPVal r.disp.planned_miles)
  let sv := psub (toPVal r.samsara_stops_count) (toPVal r.disp.planned_stops)
  let eth := pdiv (toPVal r.samsara_total_miles) (.num avg_speed_mph)
  { er := r
    miles_variance := mv
    miles_variance_percent := round2 (pmulC (pdiv mv (toPVal r.disp.planned_miles)) 100)
    stops_variance := sv
    stops_variance_percent := round2 (pmulC (pdiv sv (toPVal r.disp.planned_stops)) 100)
    estimated_trip_hours := eth
    idle_percentage := round2 (pmulC (pdiv (toPVal r.samsara_idle_time) (pmulC eth 60)) 100) }

/-- `_calculate_derived_metrics` applied to the whole enriched frame. -/
def calculate_derived_metrics (df : List EnrichedRow) : List MetricRow :=
  df.map calculate_derived_row

/-- `Series.mean()`: NaN cells are skipped; the mean of an empty (or
all-NaN) series is NaN. -/
def pmean (l : List PVal) : PVal :=
  let vals := l.filter (fun v => decide (v ≠ PVal.nan))
  if vals.length = 0 then PVal.nan
  else pdiv (vals.foldl padd (PVal.num 0)) (PVal.num vals.length)

/-- The `if pd.isna(avg): avg = 0` pattern of `_calculate_enrichment_metrics`. -/
def orZero (v : PVal) : PVal := if v = PVal.nan then PVal.num 0 else v

/-- The `EnrichmentMetrics` dataclass.  `unmatched_samsara` is
`total_samsara - matched`, which the source itself marks `# Approximation`
and which can be negative, hence `ℤ`. -/
structure EnrichmentMetrics where
  total_dispatch_records : ℕ
  total_samsara_records : ℕ
  matched_records : ℕ
  unmatched_dispatch : ℤ
  unmatched_samsara : ℤ
  match_rate : ℚ
  avg_miles_variance : PVal
  avg_stops_variance : PVal
  avg_idle_percentage : PVal
deriving DecidableEq

/-- `_calculate_enrichment_metrics`: counts, the guarded match rate, and the
means of the three derived columns over the matched subset with NaN mapped
to zero. -/
def calculate_enrichment_metrics (dispatch_count samsara_count : ℕ)
    (enriched_df : List MetricRow) : EnrichmentMetrics :=
  let matched_records := enriched_df.filter (fun r => r.er.samsara_match_found)
  let matched := matched_records.length
  { total_dispatch_records := dispatch_count
    total_samsara_records := samsara_count
    matched_records := matched
    unmatched_dispatch := (dispatch_count : ℤ) - matched
    unmatched_samsara := (samsara_count : ℤ) - matched
    match_rate := if 0 < dispatch_count then (matched : ℚ) / dispatch_count else 0
    avg_miles_variance := orZero (pmean (matched_records.map (fun r => r.miles_variance)))
    avg_stops_variance := orZero (pmean (matched_records.map (fun r => r.stops_variance)))
    avg_idle_percentage := orZero (pmean (matched_records.map (fun r => r.idle_percentage))) }

/-- The dispatch-side match columns missing from the dispatch frame:
`[col for col in match_columns.keys() if col not in dispatch_df.columns]`. -/
def missing_dispatch_columns (dispatch_cols : List String)
    (match_columns : List (String × String)) : List String :=
  (match_columns.map Prod.fst).filter (fun c => !dispatch_cols.contains c)

/-- The Samsara-side match columns missing from the Samsara frame. -/
def missing_samsara_columns (samsara_cols : List String)
    (match_columns : List (String × String)) : List String :=
  (match_columns.map Prod.snd).filter (fun c => !samsara_cols.contains c)

/-- `_validate_enrichment_columns`: raise (here: return `.error`) naming the
missing dispatch columns if any, else naming the missing Samsara columns if
any, else succeed. -/
def validate_enrichment_columns (dispatch_cols samsara_cols : List String)
    (match_columns : List (String × String)) : Except String Unit :=
  let missingDispatch := missing_dispatch_columns dispatch_cols match_columns
  if missingDispatch ≠ [] then
    .error ("Missing dispatch columns: " ++ toString missingDispatch)
  else
    let missingSamsara := missing_samsara_columns samsara_cols match_columns
    if missingSamsara ≠ [] then
      .error ("Missing Samsara columns: " ++ toString missingSamsara)
    else .ok ()

/-- A dispatch DataFrame: its column-name list (consulted by validation)
together with its rows in typed, prepared form. -/
structure DispatchTable where
  cols : List String
  rows : List DispatchRow
deriving DecidableEq

/-- A Samsara DataFrame, analogously. -/
structure SamsaraTable where
  cols : List String
  rows : List SamsaraRow
deriving DecidableEq

/-- `enrich_dispatch_data`: validate the match columns, then merge, then add
the derived metric columns, then compute the aggregate metrics.  The two
`_prepare_*_for_matching` steps are implicit here because the typed rows
already carry the `_normalized_*` columns those steps add.  A validation
failure raises before any row is processed, so the error variant carries no
table at all. -/
def enrich_dispatch_data (dispatch_df : DispatchTable) (samsara_df : SamsaraTable)
    (match_columns : List (String × String)) (date_tolerance_days : ℤ) :
    Except String (List MetricRow × EnrichmentMetrics) :=
  match validate_enrichment_columns dispatch_df.cols samsara_df.cols match_columns with
  | .error e => .error e
  | .ok _ =>
      let merged := perform_enrichment_merge dispatch_df.rows samsara_df.rows date_tolerance_days
      let enriched := calculate_derived_metrics merged
      .ok (enriched, calculate_enrichment_metrics dispatch_df.rows.length samsara_df.rows.length enriched)

/-! ### Raw Samsara cells and `_preprocess_samsara_data`

A raw cell is classified by how the single pandas coercion applied to its
column treats it: `missing` is NaN/empty, `date d` parses as day `d` under
`pd.to_datetime(errors='coerce')`, `number q` parses as `q` under
`pd.to_numeric(errors='coerce')`, and `text s` is a string the relevant
coercion cannot parse.  Each column undergoes exactly one coercion, so the
classification is per column. -/

inductive Cell where
  | missing : Cell
  | text : String → Cell
  | number : ℚ → Cell
  | date : ℤ → Cell
deriving DecidableEq

/-- `pd.to_datetime(col, errors='coerce')`: unparsable values become NaT
(`none`), never an error. -/
def toDatetimeCoerce : Cell → Option ℤ
  | .date d => some d
  | _ => none

/-- `pd.to_numeric(col, errors='coerce')`: non-numeric values become NaN
(`none`), never an error. -/
def toNumericCoerce : Cell → Option ℚ
  | .number q => some q
  | _ => none

/-- `Series.astype(str)`: every cell becomes its string rendering; in
particular a NaN cell becomes the literal string `"nan"`, not a null. -/
def astypeStr : Cell → String
  | .missing => "nan"
  | .text s => s
  | .number q => toString q
  | .date d => toString d

/-- A raw Samsara row carrying the standard columns (names already in the
lower-case/underscore form that the column-normalisation step of
`_preprocess_samsara_data` produces, with `date_column = trip_date` and
`driver_column = driver_id`). -/
structure RawSamsaraRow where
  trip_date : Cell
  driver_id : Cell
  total_miles : Cell
  idle_time : Cell
  stops_count : Cell
  fuel_used : Cell
deriving DecidableEq

/-- A row of the frame `_preprocess_samsara_data` returns. -/
structure ProcSamsaraRow where
  trip_date : Option ℤ
  driver_id : String
  total_miles : Option ℚ
  idle_time : Option ℚ
  stops_count : Option ℚ
  fuel_used : Option ℚ
deriving DecidableEq

/-- Python `str.strip()`: remove leading and trailing whitespace. -/
def pythonStrip (s : String) : String :=
  ⟨((s.data.dropWhile Char.isWhitespace).reverse.dropWhile Char.isWhitespace).reverse⟩

/-- The column coercions of `_preprocess_samsara_data` on one row: the date
column through `to_datetime(errors='coerce')`, the driver column through
`.astype(str).str.strip()` (string-cast then whitespace-trim; note: no
lower-casing here), the four numeric columns through
`to_numeric(errors='coerce')`. -/
def preprocess_row (r : RawSamsaraRow) : ProcSamsaraRow :=
  { trip_date := toDatetimeCoerce r.trip_date
    driver_id := pythonStrip (astypeStr r.driver_id)
    total_miles := toNumericCoerce r.total_miles
    idle_time := toNumericCoerce r.idle_time
    stops_count := toNumericCoerce r.stops_count
    fuel_used := toNumericCoerce r.fuel_used }

/-- `_preprocess_samsara_data`: coerce the columns, then
`dropna(subset=[date_column, driver_column])`.  After `.astype(str)` the
driver column holds strings (a NaN became `"nan"`), so the `dropna` can only
ever act on the date column: exactly the rows whose date coerced to NaT are
removed. -/
def preprocess_samsara_data (df : List RawSamsaraRow) : List ProcSamsaraRow :=
  (df.map preprocess_row).filter (fun r => r.trip_date.isSome)

/-! ### Google Sheets upsert (`integrations/google_sheets.py`)

The worksheet is `worksheet.get_all_values()`: a list of rows of strings,
the first row being the headers.  A DataFrame about to be upserted is its
column list plus its rows; `_prepare_data_for_upsert` has already applied
`fillna('').astype(str)`, so every cell is a string and a null became `""`.
DataFrame rows are rectangular: every data row has exactly one cell per
column. -/

structure SheetBatch where
  cols : List String
  rows : List (List String)
deriving DecidableEq

/-- `_prepare_data_for_upsert`: raise (`.error`) when the key column is not
among the DataFrame columns, otherwise return headers-then-rows. -/
def prepare_data_for_upsert (data : SheetBatch) (key_column : String) :
    Except String (List (List String)) :=
  if !data.cols.contains key_column then
    .error ("Key column " ++ key_column ++ " not found in data")
  else
    .ok (data.cols :: data.rows)

/-- One value of the `existing_data` dict built by `_get_existing_data`:
the 1-indexed sheet row number and the row as a header-to-value dict
(`dict(zip(headers, row))`). -/
structure SnapEntry where
  row_index : ℕ
  data : List (String × String)
deriving DecidableEq

/-- Lookup in a python dict built by inserting the bindings of `l` in order,
where a later assignment to the same key overwrites an earlier one: the
lookup therefore prefers the LAST binding. -/
def dictLookup (l : List (String × α)) (k : String) : Option α :=
  match l with
  | [] => none
  | (k2, v) :: rest =>
      match dictLookup rest k with
      | some w => some w
      | none => if k == k2 then some v else none

/-- The key cell of a sheet row, as `_get_existing_data` reads it: defined
when the row reaches the key index and the cell is non-empty (the source
guard `len(row) > key_index and row[key_index]`). -/
def rowKey (ki : ℕ) (row : List String) : Option String :=
  if ki < row.length ∧ row.getD ki "" ≠ "" then some (row.getD ki "") else none

/-- The `existing_data` bindings produced by the loop of
`_get_existing_data` over the data rows, starting at 1-indexed sheet row
`idx` (the source starts at 2).  The bindings are kept in iteration order;
`dictLookup` gives the dict's last-write-wins reading. -/
def snapEntries (headers : List String) (ki : ℕ) :
    List (List String) → ℕ → List (String × SnapEntry)
  | [], _ => []
  | row :: rest, idx =>
      (match rowKey ki row with
       | some k => [(k, ⟨idx, headers.zip row⟩)]
       | none => []) ++ snapEntries headers ki rest (idx + 1)

/-- `_get_existing_data`: empty dict when the sheet is empty or the key
column is absent from the sheet's header row; otherwise the keyed rows.
(The source also returns the empty dict when reading the worksheet raises,
which the caller models by passing an empty snapshot.) -/
def get_existing_data (sheet : List (List String)) (key_column : String) :
    List (String × SnapEntry) :=
  match sheet with
  | [] => []
  | headers :: rows =>
      if headers.contains key_column then
        snapEntries headers (headers.indexOf key_column) rows 2
      else []

/-- `existing_row.get(header, '')`. -/
def dictLookupStr (existing : List (String × String)) (h : String) : String :=
  (dictLookup existing h).getD ""

/-- The body of `_row_needs_update`, walking the headers with the positionally
corresponding prefix of the new row (the source's
`str(new_row[i]) if i < len(new_row) else ''`). -/
def row_needs_update_aux (existing : List (String × String)) :
    List String → List String → Bool
  | [], _ => false
  | h :: hs, [] => (decide (dictLookupStr existing h ≠ "")) || row_needs_update_aux existing hs []
  | h :: hs, n :: ns => (decide (n ≠ dictLookupStr existing h)) || row_needs_update_aux existing hs ns

/-- `_row_needs_update`: true iff some header position's new value differs
from the stored value. -/
def row_needs_update (new_row : List String) (existing : List (String × String))
    (headers : List String) : Bool :=
  row_needs_update_aux existing headers new_row

/-- One entry of the `update` list of an upsert plan. -/
structure UpdateOp where
  row_index : ℕ
  data : List String
deriving DecidableEq

/-- The `operations` dict of `_plan_upsert_operations`. -/
structure UpsertPlanOps where
  insert : List (List String)
  update : List UpdateOp
  headers : List String
deriving DecidableEq

/-- The loop body of `_plan_upsert_operations` for one data row: a key
present in the snapshot queues an update when the row content differs and is
a no-op otherwise; an absent key queues an insert. -/
def plan_step (headers : List String) (existing : List (String × SnapEntry)) (ki : ℕ)
    (ops : UpsertPlanOps) (row_data : List String) : UpsertPlanOps :=
  let key_value := row_data.getD ki ""
  match dictLookup existing key_value with
  | some entry =>
      if row_needs_update row_data entry.data headers then
        { ops with update := ops.update ++ [⟨entry.row_index, row_data⟩] }
      else ops
  | none => { ops with insert := ops.insert ++ [row_data] }

/-- `_plan_upsert_operations` on `prepared_data = headers :: rows` (the
shape `_prepare_data_for_upsert` always returns; on `[]` the source would
raise an IndexError at `prepared_data[0]`, an unreachable state modelled by
an empty plan).  DataFrame rectangularity means every row reaches the key
index, so `row_data[key_index]` is total. -/
def plan_upsert_operations (prepared_data : List (List String))
    (existing_data : List (String × SnapEntry)) (key_column : String) : UpsertPlanOps :=
  match prepared_data with
  | [] => { insert := [], update := [], headers := [] }
  | headers :: rows =>
      rows.foldl (plan_step headers existing_data (headers.indexOf key_column))
        { insert := [], update := [], headers := headers }

/-! ### Batch execution

`_execute_upsert_batches` walks the plan in chunks of `batch_size`.  Each
network write call is one event; `env n` tells whether the `n`-th write call
(counting from 0 in call order) succeeds or raises an `APIError`.  The
source catches an `APIError` inside the chunk loop, logs it, sleeps, and
moves on to the NEXT chunk: the failed chunk is not retried and nothing is
appended to `results['errors']` (that list only receives exceptions escaping
the whole `try`, and the per-chunk handlers swallow `APIError`). -/

inductive WriteEvent where
  | appendRows : List (List String) → WriteEvent
  | updateRow : ℕ → List String → WriteEvent
deriving DecidableEq

/-- `range(0, len(l), n)` chunking, via a fuel argument (`l.length` is always
enough fuel when `0 < n`). -/
def chunksOfAux (n : ℕ) : ℕ → List α → List (List α)
  | 0, _ => []
  | _ + 1, [] => []
  | fuel + 1, a :: l => (a :: l).take n :: chunksOfAux n fuel ((a :: l).drop n)

def chunksOf (n : ℕ) (l : List α) : List (List α) := chunksOfAux n l.length l

/-- The chunk loop of `_batch_insert`: every chunk is attempted exactly once
(one `append_rows` call, hence one event and one counter tick); a successful
chunk adds its row count to `inserted_count`, a failed one adds nothing and
the loop simply continues.  The count is accumulated tail-first here, which
yields the same total as the source's running sum. -/
def batch_insert_go (env : ℕ → Bool) : List (List (List String)) → ℕ → ℕ × List WriteEvent
  | [], _ => (0, [])
  | chunk :: rest, ctr =>
      let r := batch_insert_go env rest (ctr + 1)
      (if env ctr then chunk.length + r.1 else r.1, WriteEvent.appendRows chunk :: r.2)

/-- `_batch_insert`. -/
def batch_insert (insert_data : List (List String)) (batch_size : ℕ) (env : ℕ → Bool)
    (ctr : ℕ) : ℕ × List WriteEvent :=
  batch_insert_go env (chunksOf batch_size insert_data) ctr

/-- The inner row loop of `_batch_update` for one chunk: each row is one
`worksheet.update` call; `updated_count` grows per successful row; an
`APIError` abandons the remaining rows of this chunk only. -/
def batch_update_chunk (env : ℕ → Bool) : List UpdateOp → ℕ → ℕ × List WriteEvent
  | [], _ => (0, [])
  | op :: rest, ctr =>
      if env ctr then
        let r := batch_update_chunk env rest (ctr + 1)
        (1 + r.1, WriteEvent.updateRow op.row_index op.data :: r.2)
      else (0, [WriteEvent.updateRow op.row_index op.data])

/-- The chunk loop of `_batch_update`: after a chunk (whether it completed
or died on an `APIError`) the loop continues with the next chunk. -/
def batch_update_go (env : ℕ → Bool) : List (List UpdateOp) → ℕ → ℕ × List WriteEvent
  | [], _ => (0, [])
  | chunk :: rest, ctr =>
      let r1 := batch_update_chunk env chunk ctr
      let r2 := batch_update_go env rest (ctr + r1.2.length)
      (r1.1 + r2.1, r1.2 ++ r2.2)

/-- `_batch_update`. -/
def batch_update (update_data : List UpdateOp) (batch_size : ℕ) (env : ℕ → Bool)
    (ctr : ℕ) : ℕ × List WriteEvent :=
  batch_update_go env (chunksOf batch_size update_data) ctr

/-- The result dict of `_execute_upsert_batches` (the wall-clock
`start_time`/`end_time`/`duration` fields are omitted). -/
structure BatchResults where
  inserted : ℕ
  updated : ℕ
  errors : List String
deriving DecidableEq

/-- `_execute_upsert_batches`: run the insert batches then the update
batches and report the counts.  `errors` stays empty because `APIError` is
swallowed inside `_batch_insert`/`_batch_update` and `_ensure_headers`
catches its own exceptions, so nothing reaches the enclosing
`except` clause that appends to `results['errors']`. -/
def execute_upsert_batches (plan : UpsertPlanOps) (batch_size : ℕ) (env : ℕ → Bool) :
    BatchResults × List WriteEvent :=
  let ins := if plan.insert.isEmpty then ((0 : ℕ), ([] : List WriteEvent))
             else batch_insert plan.insert batch_size env 0
  let upd := if plan.update.isEmpty then ((0 : ℕ), ([] : List WriteEvent))
             else batch_update plan.update batch_size env ins.2.length
  ({ inserted := ins.1, updated := upd.1, errors := [] }, ins.2 ++ upd.2)

/-- The inserted/updated row totals recoverable from the write-event trace
and the success environment: the `n`-th event is the `n + k`-th call; a
successful `append_rows` contributes its row count to the first component, a
successful single-row update contributes one to the second. -/
def count_succeeded (evs : List WriteEvent) (env : ℕ → Bool) (k : ℕ) : ℕ × ℕ :=
  match evs with
  | [] => (0, 0)
  | ev :: rest =>
      let r := count_succeeded rest env (k + 1)
      match ev with
      | .appendRows rows => (if env k then rows.length + r.1 else r.1, r.2)
      | .updateRow _ _ => (r.1, if env k then 1 + r.2 else r.2)

/-! ### The sheet-level meaning of executing a plan

For the idempotence claims the worksheet contents after a fully successful
execution are needed: `_ensure_headers` rewrites row 1 when it differs,
`append_rows` appends the insert rows after the last row, and each update
overwrites the 1-indexed row `row_index` in place. -/

/-- `_ensure_headers` on the sheet contents. -/
def ensure_headers (sheet : List (List String)) (headers : List String) :
    List (List String) :=
  match sheet with
  | [] => [headers]
  | h :: rest => if h = headers then h :: rest else headers :: rest

/-- `worksheet.update(f"{i}:{i}", [data])`: overwrite 1-indexed row `i`. -/
def setRow (sheet : List (List String)) (row_index : ℕ) (data : List String) :
    List (List String) :=
  sheet.set (row_index - 1) data

/-- The worksheet contents after `_execute_upsert_batches` when every write
call succeeds: headers ensured (only when there is something to write), the
insert rows appended, the updates written to their recorded positions. -/
def applyPlan (sheet : List (List String)) (plan : UpsertPlanOps) : List (List String) :=
  let sheet1 := if plan.insert ≠ [] ∨ plan.update ≠ [] then ensure_headers sheet plan.headers
                else sheet
  let sheet2 := sheet1 ++ plan.insert
  plan.update.foldl (fun s op => setRow s op.row_index op.data) sheet2

/-! ## Theorems -/

/-- A matched enriched record with `planned_miles = 0` and observed total
miles `110`, as in the spec scenario. -/
def c1row : EnrichedRow :=
  { disp := { planned_miles := some 0, planned_stops := some 5, extra := [],
              normalized_driver := "john smith", normalized_date := some 15 }
    samsara_total_miles := some 110
    samsara_idle_time := some 30
    samsara_stops_count := some 4
    samsara_fuel_used := some 2
    samsara_match_found := true
    samsara_match_date := some 15
    samsara_match_driver := some "john smith" }

/-- C1, counterexample: a matched record with `planned_miles = 0` and total
miles `110` gets `miles_variance_percent = +inf`, not null: the division is
performed on the zero denominator and pandas yields infinity. -/
theorem c1_counterexample :
    c1row.samsara_match_found = true
    ∧ c1row.disp.planned_miles = some 0
    ∧ (calculate_derived_row c1row).miles_variance_percent = PVal.pinf
    ∧ PVal.pinf ≠ PVal.nan := by
  refine ⟨rfl, rfl, ?_, by simp⟩
  norm_num [c1row, calculate_derived_row, toPVal, psub, pdiv, pmulC, round2]

/-- C1, amended: with a zero `planned_miles` the division is performed and
`miles_variance_percent` is `+inf` for positive total miles, `-inf` for
negative, NaN for zero or missing total miles; a null `planned_miles` gives
NaN.  Likewise for `stops_variance_percent` with `planned_stops`.  No error
is raised in any case. -/
theorem c1_spec (r : EnrichedRow) :
    (r.disp.planned_miles = some 0 →
      (calculate_derived_row r).miles_variance_percent =
        (match r.samsara_total_miles with
         | none => PVal.nan
         | some m => if 0 < m then PVal.pinf else if m < 0 then PVal.ninf else PVal.nan))
    ∧ (r.disp.planned_miles = none →
        (calculate_derived_row r).miles_variance_percent = PVal.nan)
    ∧ (r.disp.planned_stops = some 0 →
      (calculate_derived_row r).stops_variance_percent =
        (match r.samsara_stops_count with
         | none => PVal.nan
         | some m => if 0 < m then PVal.pinf else if m < 0 then PVal.ninf else PVal.nan))
    ∧ (r.disp.planned_stops = none →
        (calculate_derived_row r).stops_variance_percent = PVal.nan) := by
  refine ⟨?_, ?_, ?_, ?_⟩ <;> intro h
  · cases hm : r.samsara_total_miles with
    | none => simp [calculate_derived_row, h, hm, toPVal, psub, pdiv, pmulC, round2]
    | some m =>
        simp only [calculate_derived_row, h, hm, toPVal, psub, sub_zero]
        rcases lt_trichotomy m 0 with hlt | heq | hgt
        · simp [pdiv, pmulC, round2, hlt, not_lt.mpr hlt.le, hlt.ne]
        · simp [pdiv, pmulC, round2, heq]
        · simp [pdiv, pmulC, round2, hgt]
  · cases hm : r.samsara_total_miles <;>
      simp [calculate_derived_row, h, hm, toPVal, psub, pdiv, pmulC, round2]
  · cases hm : r.samsara_stops_count with
    | none => simp [calculate_derived_row, h, hm, toPVal, psub, pdiv, pmulC, round2]
    | some m =>
        simp only [calculate_derived_row, h, hm, toPVal, psub, sub_zero]
        rcases lt_trichotomy m 0 with hlt | heq | hgt
        · simp [pdiv, pmulC, round2, hlt, not_lt.mpr hlt.le, hlt.ne]
        · simp [pdiv, pmulC, round2, heq]
        · simp [pdiv, pmulC, round2, hgt]
  · cases hm : r.samsara_stops_count <;>
      simp [calculate_derived_row, h, hm, toPVal, psub, pdiv, pmulC, round2]

/-- C1 witness: the amended theorem applied at the concrete matched record
with zero planned miles. -/
theorem c1_witness : (calculate_derived_row c1row).miles_variance_percent = PVal.pinf :=
  ((c1_spec c1row).1 rfl).trans (by norm_num [c1row])

/-- A telemetry row whose `total_miles` cell is NaN (a non-numeric cell
nulled by the preprocessing) but which is otherwise a perfect match. -/
def c3samsara : SamsaraRow :=
  { total_miles := none, idle_time := some 5, stops_count := some 4, fuel_used := some 1,
    normalized_driver := "d", normalized_date := some 0 }

def c3dispatch : DispatchRow :=
  { planned_miles := some 100, planned_stops := some 5, extra := [],
    normalized_driver := "d", normalized_date := some 0 }

/-- C3, counterexample: a record can have `samsara_match_found = true` and a
null telemetry field at the same time, because the merge copies the matched
row's fields verbatim and those may themselves be NaN. -/
theorem c3_counterexample :
    (enrich_one c3dispatch [c3samsara] 1).samsara_match_found = true
    ∧ (enrich_one c3dispatch [c3samsara] 1).samsara_total_miles = none := ⟨rfl, rfl⟩

/-- C3, amended: `match_found = false` implies every telemetry-derived field
is null (never zero); `match_found = true` implies the telemetry fields are
copied from the first candidate, and are null exactly when that candidate's
cells are. -/
theorem c3_spec (d : DispatchRow) (samsara : List SamsaraRow) (tol : ℤ) :
    ((enrich_one d samsara tol).samsara_match_found = false →
      (enrich_one d samsara tol).samsara_total_miles = none
      ∧ (enrich_one d samsara tol).samsara_idle_time = none
      ∧ (enrich_one d samsara tol).samsara_stops_count = none
      ∧ (enrich_one d samsara tol).samsara_fuel_used = none
      ∧ (enrich_one d samsara tol).samsara_match_date = none
      ∧ (enrich_one d samsara tol).samsara_match_driver = none)
    ∧ ((enrich_one d samsara tol).samsara_match_found = true →
      ∃ best, (find_samsara_matches d samsara tol).head? = some best
        ∧ (enrich_one d samsara tol).samsara_total_miles = best.total_miles
        ∧ (enrich_one d samsara tol).samsara_idle_time = best.idle_time
        ∧ (enrich_one d samsara tol).samsara_stops_count = best.stops_count
        ∧ (enrich_one d samsara tol).samsara_fuel_used = best.fuel_used) := by
  cases h : find_samsara_matches d samsara tol with
  | nil => simp [enrich_one, h]
  | cons best rest => simp [enrich_one, h]

/-- C3 witness: the amended theorem applied at a concrete matched pair whose
telemetry `total_miles` is null. -/
theorem c3_witness :
    (enrich_one c3dispatch [c3samsara] 1).samsara_total_miles = c3samsara.total_miles := by
  obtain ⟨best, hb, h1, -⟩ := (c3_spec c3dispatch [c3samsara] 1).2 rfl
  have e : find_samsara_matches c3dispatch [c3samsara] 1 = [c3samsara] := rfl
  rw [e] at hb
  cases hb
  exact h1

/-- C5, counterexample: preprocessing does not lower-case the driver column
(it only string-casts and trims), and a row whose driver cell is missing is
NOT dropped: `astype(str)` turns the NaN into the string `"nan"` before the
`dropna`, so only the date column can drop a row. -/
theorem c5_counterexample :
    (preprocess_samsara_data
        [{ trip_date := Cell.date 0, driver_id := Cell.text "  JOHN  ",
           total_miles := Cell.number 1, idle_time := Cell.number 2,
           stops_count := Cell.number 3, fuel_used := Cell.number 4 },
         { trip_date := Cell.date 0, driver_id := Cell.missing,
           total_miles := Cell.number 1, idle_time := Cell.number 2,
           stops_count := Cell.number 3, fuel_used := Cell.number 4 }]).map
        (fun r => r.driver_id)
      = ["JOHN", "nan"]
    ∧ ("JOHN" : String) ≠ "john" := by
  exact ⟨by decide, by decide⟩

/-- C5, amended: normalisation nulls unparsable dates and non-numeric
numeric cells, string-casts and trims (but does not lower-case) the identity
column, and drops exactly the rows whose date is null after coercion; a row
with a missing identity survives with the identity string-cast to `"nan"`. -/
theorem c5_spec (df : List RawSamsaraRow) :
    preprocess_samsara_data df =
      (df.filter (fun r => (toDatetimeCoerce r.trip_date).isSome)).map preprocess_row
    ∧ (∀ r ∈ df, ∀ s, r.trip_date = Cell.text s → (preprocess_row r).trip_date = none)
    ∧ (∀ r ∈ df, ∀ s, r.total_miles = Cell.text s → (preprocess_row r).total_miles = none)
    ∧ (∀ r ∈ df, (preprocess_row r).driver_id = pythonStrip (astypeStr r.driver_id))
    ∧ (∀ r ∈ df, r.driver_id = Cell.missing →
        (preprocess_row r).driver_id = "nan"
        ∧ ((preprocess_row r).trip_date.isSome → preprocess_row r ∈ preprocess_samsara_data df)) := by
  refine ⟨?_, ?_, ?_, ?_, ?_⟩
  · unfold preprocess_samsara_data
    induction df with
    | nil => rfl
    | cons r rest ih =>
        simp only [List.map_cons, List.filter_cons, preprocess_row]
        by_cases h : (toDatetimeCoerce r.trip_date).isSome <;>
          simp [h, ih, preprocess_row]
  · intro r _ s hs
    simp [preprocess_row, hs, toDatetimeCoerce]
  · intro r _ s hs
    simp [preprocess_row, hs, toNumericCoerce]
  · intro r _
    rfl
  · intro r hr hmiss
    refine ⟨?_, ?_⟩
    · have h1 : (preprocess_row r).driver_id = pythonStrip (astypeStr r.driver_id) := rfl
      rw [h1, hmiss]
      decide
    intro hdate
    unfold preprocess_samsara_data
    exact List.mem_filter.mpr ⟨List.mem_map_of_mem preprocess_row hr, hdate⟩

/-- C5 witness: the amended theorem applied to a concrete one-row table with
an unparsable date cell, which is dropped. -/
theorem c5_witness :
    preprocess_samsara_data
        [{ trip_date := Cell.text "not a date", driver_id := Cell.text "a",
           total_miles := Cell.number 1, idle_time := Cell.number 2,
           stops_count := Cell.number 3, fuel_used := Cell.number 4 }] = [] :=
  (c5_spec _).1.trans (by decide)

/-- Both branches of the merge body carry the dispatch row through
unmodified (`enriched_record = dispatch_row.to_dict()`). -/
theorem enrich_one_disp (d : DispatchRow) (samsara : List SamsaraRow) (tol : ℤ) :
    (enrich_one d samsara tol).disp = d := by
  unfold enrich_one
  cases find_samsara_matches d samsara tol <;> rfl

/-- Adding the derived metric columns leaves the enriched fields intact. -/
theorem calculate_derived_row_er (r : EnrichedRow) : (calculate_derived_row r).er = r := rfl

/-- C6: when enrichment succeeds, projecting the dispatch part out of the
output table gives back exactly the input dispatch rows — same count, same
order, no fan-out, no drops. -/
theorem c6_spec (D : DispatchTable) (S : SamsaraTable) (mc : List (String × String))
    (tol : ℤ) (out : List MetricRow) (metrics : EnrichmentMetrics)
    (h : enrich_dispatch_data D S mc tol = .ok (out, metrics)) :
    out.map (fun r => r.er.disp) = D.rows := by
  unfold enrich_dispatch_data at h
  cases hv : validate_enrichment_columns D.cols S.cols mc with
  | error e => rw [hv] at h; exact absurd h (by simp)
  | ok u =>
      rw [hv] at h
      simp only [Except.ok.injEq, Prod.mk.injEq] at h
      obtain ⟨hout, -⟩ := h
      subst hout
      unfold calculate_derived_metrics perform_enrichment_merge
      simp only [List.map_map]
      have hfun : ((fun r : MetricRow => r.er.disp) ∘ calculate_derived_row
          ∘ fun d => enrich_one d S.rows tol) = id := by
        funext d
        simp [Function.comp, calculate_derived_row_er, enrich_one_disp]
      rw [hfun, List.map_id]

def c6dispatch_table : DispatchTable :=
  { cols := ["driver_name", "date", "planned_miles", "planned_stops"],
    rows := [{ planned_miles := some 100, planned_stops := some 5, extra := [],
               normalized_driver := "john smith", normalized_date := some 15 }] }

def c6samsara_table : SamsaraTable :=
  { cols := ["driver_id", "trip_date", "total_miles"],
    rows := [{ total_miles := some 110, idle_time := some 30, stops_count := some 4,
               fuel_used := some 2, normalized_driver := "john smith",
               normalized_date := some 15 }] }

def default_match_columns : List (String × String) :=
  [("driver_name", "driver_id"), ("date", "trip_date")]

/-- C6 witness: a concrete successful run reproduces its dispatch rows. -/
theorem c6_witness :
    (calculate_derived_metrics
        (perform_enrichment_merge c6dispatch_table.rows c6samsara_table.rows 1)).map
      (fun r => r.er.disp) = c6dispatch_table.rows :=
  c6_spec c6dispatch_table c6samsara_table default_match_columns 1 _ _ rfl

/-- The candidate predicate of the spec reading of `_find_samsara_matches`
for a dispatch row with driver `d.normalized_driver` and date `dd`: exact
normalized-driver equality and date within `tol` days inclusive. -/
def candidate_pred (d : DispatchRow) (dd tol : ℤ) (s : SamsaraRow) : Bool :=
  (s.normalized_driver == d.normalized_driver)
    && dateWithin s.normalized_date (dd - tol) (dd + tol)

/-- C7: for a dispatch row with a (non-null) date, the candidate set is
exactly the telemetry rows passing the driver-equality filter and the
inclusive date-window filter, in the telemetry table's original relative
order; and when candidates exist the merge takes the FIRST of them
(`matches.iloc[0]`) as the best match — stable table order, not closest
date. -/
theorem c7_spec (d : DispatchRow) (samsara : List SamsaraRow) (tol dd : ℤ)
    (h : d.normalized_date = some dd) :
    find_samsara_matches d samsara tol = samsara.filter (candidate_pred d dd tol)
    ∧ ∀ best rest, samsara.filter (candidate_pred d dd tol) = best :: rest →
        (enrich_one d samsara tol).samsara_match_found = true
        ∧ (enrich_one d samsara tol).samsara_total_miles = best.total_miles
        ∧ (enrich_one d samsara tol).samsara_idle_time = best.idle_time
        ∧ (enrich_one d samsara tol).samsara_stops_count = best.stops_count
        ∧ (enrich_one d samsara tol).samsara_fuel_used = best.fuel_used := by
  have hfind : find_samsara_matches d samsara tol = samsara.filter (candidate_pred d dd tol) := by
    unfold find_samsara_matches
    rw [h]
    show (List.filter (fun s => dateWithin s.normalized_date (dd - tol) (dd + tol))
        (List.filter (fun s => s.normalized_driver == d.normalized_driver) samsara))
      = samsara.filter (candidate_pred d dd tol)
    rw [List.filter_filter]
    apply List.filter_congr
    intro s _
    simp [candidate_pred, Bool.and_comm]
  refine ⟨hfind, ?_⟩
  intro best rest hbr
  unfold enrich_one
  rw [hfind, hbr]
  exact ⟨rfl, rfl, rfl, rfl, rfl⟩

def c7dispatch : DispatchRow :=
  { planned_miles := some 100, planned_stops := some 5, extra := [],
    normalized_driver := "john smith", normalized_date := some 15 }

/-- The in-tolerance telemetry row of the spec scenario. -/
def c7s1 : SamsaraRow :=
  { total_miles := some 110, idle_time := some 30, stops_count := some 4,
    fuel_used := some 2, normalized_driver := "john smith", normalized_date := some 15 }

/-- The out-of-tolerance telemetry row of the spec scenario (five days off). -/
def c7s2 : SamsaraRow :=
  { total_miles := some 999, idle_time := some 10, stops_count := some 1,
    fuel_used := some 3, normalized_driver := "john smith", normalized_date := some 20 }

/-- C7 witness: the spec scenario — two same-driver telemetry rows, only the
first within tolerance one day; it is selected. -/
theorem c7_witness :
    find_samsara_matches c7dispatch [c7s1, c7s2] 1
        = List.filter (candidate_pred c7dispatch 15 1) [c7s1, c7s2]
    ∧ (enrich_one c7dispatch [c7s1, c7s2] 1).samsara_total_miles = c7s1.total_miles := by
  have h := c7_spec c7dispatch [c7s1, c7s2] 1 15 rfl
  refine ⟨h.1, ?_⟩
  have e : List.filter (candidate_pred c7dispatch 15 1) [c7s1, c7s2] = [c7s1] := rfl
  exact (h.2 c7s1 [] e).2.1

/-- C8: enrichment fails fast with an error naming the missing dispatch-side
match columns when any is absent; otherwise, with those present, an error
naming the missing Samsara-side columns when any is absent; and with all
match columns present it returns a full enriched table (one row per dispatch
row) together with the aggregate metrics — never a partial result. -/
theorem c8_spec (D : DispatchTable) (S : SamsaraTable) (mc : List (String × String))
    (tol : ℤ) :
    (missing_dispatch_columns D.cols mc ≠ [] →
      enrich_dispatch_data D S mc tol =
        .error ("Missing dispatch columns: " ++ toString (missing_dispatch_columns D.cols mc)))
    ∧ (missing_dispatch_columns D.cols mc = [] → missing_samsara_columns S.cols mc ≠ [] →
      enrich_dispatch_data D S mc tol =
        .error ("Missing Samsara columns: " ++ toString (missing_samsara_columns S.cols mc)))
    ∧ (missing_dispatch_columns D.cols mc = [] → missing_samsara_columns S.cols mc = [] →
      ∃ out metrics, enrich_dispatch_data D S mc tol = .ok (out, metrics)
        ∧ out.length = D.rows.length) := by
  refine ⟨?_, ?_, ?_⟩
  · intro h1
    unfold enrich_dispatch_data validate_enrichment_columns
    simp [h1]
  · intro h1 h2
    unfold enrich_dispatch_data validate_enrichment_columns
    simp [h1, h2]
  · intro h1 h2
    refine ⟨calculate_derived_metrics (perform_enrichment_merge D.rows S.rows tol),
        calculate_enrichment_metrics D.rows.length S.rows.length
          (calculate_derived_metrics (perform_enrichment_merge D.rows S.rows tol)),
        ?_, ?_⟩
    · unfold enrich_dispatch_data validate_enrichment_columns
      simp [h1, h2]
    · unfold calculate_derived_metrics perform_enrichment_merge
      simp

def c8dispatch_bad : DispatchTable := { cols := ["date"], rows := [] }

/-- C8 witness: a dispatch table lacking the `driver_name` match column is
rejected with an error naming it, before any processing. -/
theorem c8_witness :
    enrich_dispatch_data c8dispatch_bad c6samsara_table default_match_columns 1 =
      .error ("Missing dispatch columns: "
        ++ toString (missing_dispatch_columns c8dispatch_bad.cols default_match_columns)) :=
  (c8_spec c8dispatch_bad c6samsara_table default_match_columns 1).1 (by decide)

/-- The insert chunk loop produces one `append_rows` event per chunk — in
chunk order, independently of which calls fail — and counts exactly the rows
of the successful calls. -/
theorem batch_insert_go_spec (env : ℕ → Bool) :
    ∀ (chunks : List (List (List String))) (ctr : ℕ),
      batch_insert_go env chunks ctr
        = ((count_succeeded (chunks.map WriteEvent.appendRows) env ctr).1,
           chunks.map WriteEvent.appendRows) := by
  intro chunks
  induction chunks with
  | nil => intro ctr; rfl
  | cons chunk rest ih =>
      intro ctr
      simp only [batch_insert_go, List.map_cons, count_succeeded, ih]

/-- Splitting an event trace splits the recovered success counts, with the
call counter advanced by the length of the first part. -/
theorem count_succeeded_append (env : ℕ → Bool) :
    ∀ (a b : List WriteEvent) (k : ℕ),
      count_succeeded (a ++ b) env k
        = ((count_succeeded a env k).1 + (count_succeeded b env (k + a.length)).1,
           (count_succeeded a env k).2 + (count_succeeded b env (k + a.length)).2) := by
  intro a
  induction a with
  | nil => intro b k; simp [count_succeeded]
  | cons ev rest ih =>
      intro b k
      cases ev with
      | appendRows rows =>
          have h1 : count_succeeded ((WriteEvent.appendRows rows :: rest) ++ b) env k
              = (if env k then rows.length + (count_succeeded (rest ++ b) env (k + 1)).1
                 else (count_succeeded (rest ++ b) env (k + 1)).1,
                 (count_succeeded (rest ++ b) env (k + 1)).2) := rfl
          have h2 : count_succeeded (WriteEvent.appendRows rows :: rest) env k
              = (if env k then rows.length + (count_succeeded rest env (k + 1)).1
                 else (count_succeeded rest env (k + 1)).1,
                 (count_succeeded rest env (k + 1)).2) := rfl
          rw [h1, h2, ih b (k + 1)]
          simp only [List.length_cons]
          rw [show k + 1 + rest.length = k + (rest.length + 1) from by omega]
          by_cases h : env k = true <;> simp [h] <;> omega
      | updateRow i dta =>
          have h1 : count_succeeded ((WriteEvent.updateRow i dta :: rest) ++ b) env k
              = ((count_succeeded (rest ++ b) env (k + 1)).1,
                 if env k then 1 + (count_succeeded (rest ++ b) env (k + 1)).2
                 else (count_succeeded (rest ++ b) env (k + 1)).2) := rfl
          have h2 : count_succeeded (WriteEvent.updateRow i dta :: rest) env k
              = ((count_succeeded rest env (k + 1)).1,
                 if env k then 1 + (count_succeeded rest env (k + 1)).2
                 else (count_succeeded rest env (k + 1)).2) := rfl
          rw [h1, h2, ih b (k + 1)]
          simp only [List.length_cons]
          rw [show k + 1 + rest.length = k + (rest.length + 1) from by omega]
          by_cases h : env k = true <;> simp [h] <;> omega

/-- The row loop of one update chunk: its count is exactly the successful
row-update calls of its own trace, and its trace consists of single-row
update events only. -/
theorem batch_update_chunk_spec (env : ℕ → Bool) :
    ∀ (chunk : List UpdateOp) (ctr : ℕ),
      (batch_update_chunk env chunk ctr).1
          = (count_succeeded (batch_update_chunk env chunk ctr).2 env ctr).2
      ∧ (count_succeeded (batch_update_chunk env chunk ctr).2 env ctr).1 = 0
      ∧ ∀ ev ∈ (batch_update_chunk env chunk ctr).2, ∃ i dta, ev = WriteEvent.updateRow i dta := by
  intro chunk
  induction chunk with
  | nil => intro ctr; exact ⟨rfl, rfl, by simp [batch_update_chunk]⟩
  | cons op rest ih =>
      intro ctr
      by_cases h : env ctr = true
      · obtain ⟨h1, h2, h3⟩ := ih (ctr + 1)
        refine ⟨?_, ?_, ?_⟩
        · simp [batch_update_chunk, h, count_succeeded, h1]
        · simp [batch_update_chunk, h, count_succeeded, h2]
        · intro ev hev
          simp only [batch_update_chunk, h, if_true, List.mem_cons] at hev
          rcases hev with rfl | hev
          · exact ⟨_, _, rfl⟩
          · exact h3 ev hev
      · have hf : env ctr = false := by simpa using h
        refine ⟨?_, ?_, ?_⟩
        · simp [batch_update_chunk, hf, count_succeeded]
        · simp [batch_update_chunk, hf, count_succeeded]
        · intro ev hev
          simp only [batch_update_chunk, hf, Bool.false_eq_true, if_false,
            List.mem_singleton] at hev
          exact ⟨_, _, hev⟩

/-- The update chunk loop: its count is the successful row-update calls of
its whole trace, and execution continues to later chunks after a failure. -/
theorem batch_update_go_spec (env : ℕ → Bool) :
    ∀ (chunks : List (List UpdateOp)) (ctr : ℕ),
      (batch_update_go env chunks ctr).1
          = (count_succeeded (batch_update_go env chunks ctr).2 env ctr).2
      ∧ (count_succeeded (batch_update_go env chunks ctr).2 env ctr).1 = 0
      ∧ ∀ ev ∈ (batch_update_go env chunks ctr).2, ∃ i dta, ev = WriteEvent.updateRow i dta := by
  intro chunks
  induction chunks with
  | nil => intro ctr; exact ⟨rfl, rfl, by simp [batch_update_go]⟩
  | cons chunk rest ih =>
      intro ctr
      obtain ⟨c1, c2, c3⟩ := batch_update_chunk_spec env chunk ctr
      obtain ⟨g1, g2, g3⟩ := ih (ctr + (batch_update_chunk env chunk ctr).2.length)
      refine ⟨?_, ?_, ?_⟩
      · simp only [batch_update_go, count_succeeded_append, c1, g1, c2, g2]
      · simp only [batch_update_go, count_succeeded_append, c2, g2]
      · intro ev hev
        simp only [batch_update_go, List.mem_append] at hev
        rcases hev with hev | hev
        · exact c3 ev hev
        · exact g3 ev hev

/-- Chunking partitions the data: concatenating the chunks restores the
original list (positive chunk size). -/
theorem chunksOfAux_flatten (n : ℕ) (hn : 0 < n) :
    ∀ (fuel : ℕ) (l : List α), l.length ≤ fuel → (chunksOfAux n fuel l).flatten = l := by
  intro fuel
  induction fuel with
  | zero =>
      intro l hl
      have h0 : l = [] := List.eq_nil_of_length_eq_zero (Nat.le_zero.mp hl)
      subst h0
      rfl
  | succ fuel ih =>
      intro l hl
      cases l with
      | nil => rfl
      | cons a t =>
          simp only [chunksOfAux, List.flatten_cons]
          rw [ih ((a :: t).drop n) (by
            simp only [List.length_drop, List.length_cons]
            simp only [List.length_cons] at hl
            omega)]
          exact List.take_append_drop n (a :: t)

theorem chunksOf_flatten (n : ℕ) (hn : 0 < n) (l : List α) : (chunksOf n l).flatten = l :=
  chunksOfAux_flatten n hn l.length l le_rfl

def c2plan : UpsertPlanOps := { insert := [["a"]], update := [], headers := ["h"] }

def c2env : ℕ → Bool := fun _ => false

/-- C2, counterexample: a plan with a single insert chunk whose write call
fails.  The chunk is attempted exactly once (one `append_rows` event — no
retry, transient or not), nothing is written, and the result's error list is
EMPTY: the failure is only logged, never recorded in `results['errors']`,
contradicting the claim that chunk failures are retried or recorded. -/
theorem c2_counterexample :
    execute_upsert_batches c2plan 1 c2env
      = ({ inserted := 0, updated := 0, errors := [] }, [WriteEvent.appendRows [["a"]]]) := rfl

/-- C2, amended: executing a plan attempts each insert chunk exactly once in
order — a failed chunk is paused on but neither retried nor aborted on, and
its error is NOT recorded in the result's error list, which stays empty; the
update phase likewise continues chunk after chunk (only the remaining rows
of a failing chunk are skipped); and the returned inserted/updated counts
equal exactly the successful rows recoverable from the write trace.  The
insert chunks partition the planned insert rows. -/
theorem c2_spec (plan : UpsertPlanOps) (batch_size : ℕ) (env : ℕ → Bool)
    (hbs : 0 < batch_size) :
    (execute_upsert_batches plan batch_size env).1.errors = []
    ∧ (execute_upsert_batches plan batch_size env).1.inserted
        = (count_succeeded (execute_upsert_batches plan batch_size env).2 env 0).1
    ∧ (execute_upsert_batches plan batch_size env).1.updated
        = (count_succeeded (execute_upsert_batches plan batch_size env).2 env 0).2
    ∧ (∃ uevs, (execute_upsert_batches plan batch_size env).2
          = (chunksOf batch_size plan.insert).map WriteEvent.appendRows ++ uevs
        ∧ ∀ ev ∈ uevs, ∃ i dta, ev = WriteEvent.updateRow i dta)
    ∧ (chunksOf batch_size plan.insert).flatten = plan.insert := by
  have hins : (if plan.insert.isEmpty then ((0 : ℕ), ([] : List WriteEvent))
        else batch_insert plan.insert batch_size env 0)
      = ((count_succeeded ((chunksOf batch_size plan.insert).map WriteEvent.appendRows) env 0).1,
         (chunksOf batch_size plan.insert).map WriteEvent.appendRows) := by
    by_cases he : plan.insert.isEmpty
    · have h0 : plan.insert = [] := List.isEmpty_iff.mp he
      simp only [he, if_true]
      rw [h0]
      rfl
    · simp only [he, Bool.false_eq_true, if_false]
      exact batch_insert_go_spec env (chunksOf batch_size plan.insert) 0
  have hcnt0 : ∀ k, (count_succeeded ((chunksOf batch_size plan.insert).map
      WriteEvent.appendRows) env k).2 = 0 := by
    intro k
    generalize chunksOf batch_size plan.insert = chunks
    induction chunks generalizing k with
    | nil => rfl
    | cons c rest ih => simp [count_succeeded, ih]
  by_cases hu : plan.update.isEmpty
  · have hexec : execute_upsert_batches plan batch_size env
        = ({ inserted := (count_succeeded ((chunksOf batch_size plan.insert).map
               WriteEvent.appendRows) env 0).1, updated := 0, errors := [] },
           (chunksOf batch_size plan.insert).map WriteEvent.appendRows ++ []) := by
      simp only [execute_upsert_batches]
      rw [hins]
      simp [hu]
    rw [hexec]
    refine ⟨rfl, ?_, ?_, ⟨[], rfl, by simp⟩, chunksOf_flatten _ hbs _⟩
    · simp
    · simp [hcnt0]
  · obtain ⟨g1, g2, g3⟩ := batch_update_go_spec env (chunksOf batch_size plan.update)
      ((chunksOf batch_size plan.insert).map WriteEvent.appendRows).length
    simp only [List.length_map] at g1 g2
    have hexec : execute_upsert_batches plan batch_size env
        = ({ inserted := (count_succeeded ((chunksOf batch_size plan.insert).map
               WriteEvent.appendRows) env 0).1,
             updated := (batch_update_go env (chunksOf batch_size plan.update)
               ((chunksOf batch_size plan.insert).map WriteEvent.appendRows).length).1,
             errors := [] },
           (chunksOf batch_size plan.insert).map WriteEvent.appendRows
             ++ (batch_update_go env (chunksOf batch_size plan.update)
               ((chunksOf batch_size plan.insert).map WriteEvent.appendRows).length).2) := by
      simp only [execute_upsert_batches]
      rw [hins]
      simp [hu, batch_update]
    rw [hexec]
    refine ⟨rfl, ?_, ?_, ⟨_, rfl, g3⟩, chunksOf_flatten _ hbs _⟩
    · rw [count_succeeded_append]
      simp [g2]
    · rw [count_succeeded_append]
      simp [hcnt0, g1]

/-- C2 witness: the amended theorem applied to the concrete one-chunk plan
under an always-failing environment. -/
theorem c2_witness :
    (execute_upsert_batches c2plan 1 c2env).1.errors = []
    ∧ (execute_upsert_batches c2plan 1 c2env).1.inserted
        = (count_succeeded (execute_upsert_batches c2plan 1 c2env).2 c2env 0).1 := by
  have h := c2_spec c2plan 1 c2env (by decide)
  exact ⟨h.1, h.2.1⟩

/-- Closed form of the planning fold: inserts are the rows whose key misses
the snapshot, updates are the rows whose key hits it with differing content,
each carrying the remote row position; no-op rows appear in neither. -/
theorem plan_foldl_spec (headers : List String) (existing : List (String × SnapEntry))
    (ki : ℕ) :
    ∀ (rows : List (List String)) (ops : UpsertPlanOps),
      rows.foldl (plan_step headers existing ki) ops
        = { insert := ops.insert
              ++ rows.filter (fun r => (dictLookup existing (r.getD ki "")).isNone),
            update := ops.update
              ++ rows.filterMap (fun r =>
                  match dictLookup existing (r.getD ki "") with
                  | some entry =>
                      if row_needs_update r entry.data headers then
                        some ⟨entry.row_index, r⟩
                      else none
                  | none => none),
            headers := ops.headers } := by
  intro rows
  induction rows with
  | nil =>
      intro ops
      simp
  | cons r rest ih =>
      intro ops
      rw [List.foldl_cons, ih]
      cases hl : dictLookup existing (r.getD ki "") with
      | none =>
          simp only [plan_step, hl, List.filter_cons, List.filterMap_cons]
          simp [List.append_assoc]
      | some entry =>
          by_cases hup : row_needs_update r entry.data headers = true
          · simp only [plan_step, hl, hup, List.filter_cons, List.filterMap_cons]
            simp [List.append_assoc]
          · have hf : row_needs_update r entry.data headers = false := by simpa using hup
            simp only [plan_step, hl, hf, List.filter_cons, List.filterMap_cons]
            simp [List.append_assoc]

/-- `_plan_upsert_operations` in closed form. -/
theorem plan_upsert_operations_eq (headers : List String) (rows : List (List String))
    (existing : List (String × SnapEntry)) (key : String) :
    plan_upsert_operations (headers :: rows) existing key
      = { insert := rows.filter
            (fun r => (dictLookup existing (r.getD (headers.indexOf key) "")).isNone),
          update := rows.filterMap (fun r =>
            match dictLookup existing (r.getD (headers.indexOf key) "") with
            | some entry =>
                if row_needs_update r entry.data headers then
                  some ⟨entry.row_index, r⟩
                else none
            | none => none),
          headers := headers } := by
  have h0 : plan_upsert_operations (headers :: rows) existing key
      = rows.foldl (plan_step headers existing (headers.indexOf key))
          { insert := [], update := [], headers := headers } := rfl
  rw [h0, plan_foldl_spec]
  simp

/-- A snapshot entry key is never the empty string (`_get_existing_data`
skips rows whose key cell is empty). -/
theorem rowKey_ne_empty (ki : ℕ) (row : List String) (k : String)
    (h : rowKey ki row = some k) : k ≠ "" := by
  unfold rowKey at h
  by_cases hc : ki < row.length ∧ row.getD ki "" ≠ ""
  · rw [if_pos hc] at h
    cases h
    exact hc.2
  · rw [if_neg hc] at h
    cases h

/-- Snapshot lookup of the empty key always misses. -/
theorem dictLookup_snapEntries_empty_key (headers : List String) (ki : ℕ) :
    ∀ (rows : List (List String)) (idx : ℕ),
      dictLookup (snapEntries headers ki rows idx) "" = none := by
  intro rows
  induction rows with
  | nil => intro idx; rfl
  | cons row rest ih =>
      intro idx
      cases hk : rowKey ki row with
      | none => simp [snapEntries, hk, ih]
      | some k =>
          have hne := rowKey_ne_empty ki row k hk
          simp [snapEntries, hk, dictLookup, ih, Ne.symm hne]

/-- The empty key misses the snapshot of any sheet. -/
theorem get_existing_data_empty_key (sheet : List (List String)) (key : String) :
    dictLookup (get_existing_data sheet key) "" = none := by
  cases sheet with
  | nil => rfl
  | cons headers rows =>
      have h0 : get_existing_data (headers :: rows) key
          = if headers.contains key then snapEntries headers (headers.indexOf key) rows 2
            else [] := rfl
      rw [h0]
      by_cases hc : headers.contains key = true
      · rw [if_pos hc]
        exact dictLookup_snapEntries_empty_key headers (headers.indexOf key) rows 2
      · rw [if_neg hc]
        rfl

/-- C4, counterexample: a data row with an EMPTY key value is not rejected —
it is queued as an insert (the empty key can never match a snapshot entry),
contradicting the claim that such rows are queued as neither insert nor
update. -/
theorem c4_counterexample :
    (plan_upsert_operations [["id", "val"], ["", "x"]] [] "id").insert = [["", "x"]]
    ∧ (plan_upsert_operations [["id", "val"], ["", "x"]] [] "id").update = [] := ⟨rfl, rfl⟩

/-- C4, amended: a key column absent from the batch raises a configuration
error naming it (not a silent skip), but a row whose key value is
null/empty is NOT rejected: since the snapshot never contains the empty key,
every such row is planned as an insert. -/
theorem c4_spec :
    (∀ (data : SheetBatch) (key : String), data.cols.contains key = false →
      prepare_data_for_upsert data key
        = .error ("Key column " ++ key ++ " not found in data"))
    ∧ (∀ (headers : List String) (rows : List (List String)) (sheet : List (List String))
        (key : String) (row : List String), row ∈ rows →
        row.getD (headers.indexOf key) "" = "" →
        row ∈ (plan_upsert_operations (headers :: rows)
          (get_existing_data sheet key) key).insert) := by
  constructor
  · intro data key h
    unfold prepare_data_for_upsert
    rw [h]
    rfl
  · intro headers rows sheet key row hmem hkey
    rw [plan_upsert_operations_eq]
    refine List.mem_filter.mpr ⟨hmem, ?_⟩
    rw [hkey, get_existing_data_empty_key]
    rfl

/-- C4 witness: the amended theorem at a concrete batch — a missing key
column errors, and a concrete empty-keyed row lands among the inserts even
though a remote snapshot exists. -/
theorem c4_witness :
    prepare_data_for_upsert { cols := ["val"], rows := [] } "id"
        = .error ("Key column " ++ "id" ++ " not found in data")
    ∧ (["", "x"] : List String) ∈ (plan_upsert_operations [["id", "val"], ["", "x"]]
        (get_existing_data [["id", "val"], ["A", "y"]] "id") "id").insert :=
  ⟨c4_spec.1 { cols := ["val"], rows := [] } "id" (by decide),
   c4_spec.2 ["id", "val"] [["", "x"]] [["id", "val"], ["A", "y"]] "id" ["", "x"]
     (by decide) (by decide)⟩

/-- C10: when the snapshot read yields nothing — the source returns an empty
dict when the worksheet read raises or when the key column is missing from
the remote header row — planning sends EVERY batch row to the insert list
and nothing to the update list; executing such a plan appends the rows after
the existing ones, so a second run under the same read failure appends the
very same rows again: duplicates instead of updates. -/
theorem c10_spec (headers : List String) (srows rows : List (List String)) (key : String)
    (hrows : rows ≠ []) :
    get_existing_data [] key = []
    ∧ (headers.contains key = false → get_existing_data (headers :: srows) key = [])
    ∧ (plan_upsert_operations (headers :: rows) [] key).insert = rows
    ∧ (plan_upsert_operations (headers :: rows) [] key).update = []
    ∧ applyPlan (applyPlan (headers :: srows) (plan_upsert_operations (headers :: rows) [] key))
        (plan_upsert_operations (headers :: rows) [] key)
      = headers :: ((srows ++ rows) ++ rows) := by
  have hplan := plan_upsert_operations_eq headers rows [] key
  have hins : (plan_upsert_operations (headers :: rows) [] key).insert = rows := by
    rw [hplan]
    simp [dictLookup]
  have hupd : (plan_upsert_operations (headers :: rows) [] key).update = [] := by
    rw [hplan]
    simp [dictLookup]
  have hhead : (plan_upsert_operations (headers :: rows) [] key).headers = headers := by
    rw [hplan]
  refine ⟨rfl, ?_, hins, hupd, ?_⟩
  · intro h
    have h0 : get_existing_data (headers :: srows) key
        = if headers.contains key then snapEntries headers (headers.indexOf key) srows 2
          else [] := rfl
    rw [h0, h]
    simp
  · have happly : ∀ sheet2 : List (List String), sheet2 ≠ [] → sheet2.headD [] = headers →
        applyPlan sheet2 (plan_upsert_operations (headers :: rows) [] key) = sheet2 ++ rows := by
      intro sheet2 hne hcons
      unfold applyPlan
      rw [hins, hupd, hhead]
      rw [if_pos (Or.inl hrows)]
      cases sheet2 with
      | nil => exact absurd rfl hne
      | cons h0 t =>
          simp only [List.headD_cons] at hcons
          subst hcons
          simp [ensure_headers]
    rw [happly (headers :: srows) (by simp) (by simp)]
    rw [happly ((headers :: srows) ++ rows) (by simp) (by simp)]
    simp

/-- C10 witness: a batch whose single row already exists remotely, planned
under a failed snapshot read, executed twice: the row is appended twice and
the sheet ends with three copies. -/
theorem c10_witness :
    applyPlan (applyPlan [["id", "val"], ["A", "x"]]
        (plan_upsert_operations [["id", "val"], ["A", "x"]] [] "id"))
        (plan_upsert_operations [["id", "val"], ["A", "x"]] [] "id")
      = [["id", "val"], ["A", "x"], ["A", "x"], ["A", "x"]] :=
  ((c10_spec ["id", "val"] [["A", "x"]] [["A", "x"]] "id" (by decide)).2.2.2.2).trans rfl

/-! ### Snapshot-lookup lemmas for the idempotence claim -/

theorem rowKey_nil (ki : ℕ) : rowKey ki ([] : List String) = none := by
  simp [rowKey]

theorem dictLookup_cons (k2 : String) (v : α) (l : List (String × α)) (k : String) :
    dictLookup ((k2, v) :: l) k
      = match dictLookup l k with
        | some w => some w
        | none => if k == k2 then some v else none := rfl

theorem dictLookup_append (l₁ l₂ : List (String × α)) (k : String) :
    dictLookup (l₁ ++ l₂) k = (dictLookup l₂ k).or (dictLookup l₁ k) := by
  induction l₁ with
  | nil =>
      cases h : dictLookup l₂ k <;> simp [dictLookup, Option.or, h]
  | cons p rest ih =>
      obtain ⟨k2, v⟩ := p
      rw [List.cons_append, dictLookup_cons, dictLookup_cons, ih]
      cases h2 : dictLookup l₂ k <;> cases hr : dictLookup rest k <;>
        simp [Option.or, h2, hr]

theorem snapEntries_cons (headers : List String) (ki : ℕ) (row : List String)
    (rest : List (List String)) (idx : ℕ) :
    snapEntries headers ki (row :: rest) idx
      = (match rowKey ki row with
         | some k2 => [(k2, ⟨idx, headers.zip row⟩)]
         | none => []) ++ snapEntries headers ki rest (idx + 1) := rfl

theorem dictLookup_snapEntries_cons (headers : List String) (ki : ℕ) (row : List String)
    (rest : List (List String)) (idx : ℕ) (k : String) :
    dictLookup (snapEntries headers ki (row :: rest) idx) k
      = (dictLookup (snapEntries headers ki rest (idx + 1)) k).or
          (if rowKey ki row = some k then some ⟨idx, headers.zip row⟩ else none) := by
  rw [snapEntries_cons, dictLookup_append]
  congr 1
  cases h : rowKey ki row with
  | none => simp [dictLookup]
  | some k2 =>
      by_cases he : k = k2
      · subst he
        simp [dictLookup]
      · simp [dictLookup, he, Ne.symm he]

/-- A snapshot lookup misses exactly when no row has the key in its key
cell. -/
theorem dictLookup_snapEntries_none_iff (headers : List String) (ki : ℕ) (k : String) :
    ∀ (rows : List (List String)) (idx : ℕ),
      dictLookup (snapEntries headers ki rows idx) k = none
        ↔ ∀ j, rowKey ki (rows.getD j []) ≠ some k := by
  intro rows
  induction rows with
  | nil =>
      intro idx
      constructor
      · intro _ j
        simp [List.getD, rowKey_nil]
      · intro _
        rfl
  | cons row rest ih =>
      intro idx
      rw [dictLookup_snapEntries_cons]
      constructor
      · intro h j
        cases htail : dictLookup (snapEntries headers ki rest (idx + 1)) k with
        | some e2 => rw [htail] at h; simp [Option.or] at h
        | none =>
            rw [htail] at h
            simp only [Option.or] at h
            cases j with
            | zero =>
                rw [List.getD_cons_zero]
                intro hk
                rw [if_pos hk] at h
                cases h
            | succ j2 =>
                rw [List.getD_cons_succ]
                exact (ih (idx + 1)).mp htail j2
      · intro h
        have htail : dictLookup (snapEntries headers ki rest (idx + 1)) k = none :=
          (ih (idx + 1)).mpr (fun j => by
            have := h (j + 1)
            rwa [List.getD_cons_succ] at this)
        rw [htail]
        have h0 := h 0
        rw [List.getD_cons_zero] at h0
        simp [Option.or, h0]

/-- A snapshot lookup hits exactly the LAST row carrying the key (python
dict overwrite semantics), and the entry records that row's 1-indexed
position and its header-zipped contents. -/
theorem dictLookup_snapEntries_some_iff (headers : List String) (ki : ℕ) (k : String) :
    ∀ (rows : List (List String)) (idx : ℕ) (e : SnapEntry),
      dictLookup (snapEntries headers ki rows idx) k = some e
        ↔ ∃ j, j < rows.length ∧ rowKey ki (rows.getD j []) = some k
            ∧ e = ⟨idx + j, headers.zip (rows.getD j [])⟩
            ∧ ∀ i, j < i → rowKey ki (rows.getD i []) ≠ some k := by
  intro rows
  induction rows with
  | nil =>
      intro idx e
      constructor
      · intro h
        simp [snapEntries, dictLookup] at h
      · rintro ⟨j, hj, -⟩
        exact absurd hj (Nat.not_lt_zero j)
  | cons row rest ih =>
      intro idx e
      rw [dictLookup_snapEntries_cons]
      cases htail : dictLookup (snapEntries headers ki rest (idx + 1)) k with
      | some e2 =>
          obtain ⟨j, hj, hkj, hej, hlast⟩ := (ih (idx + 1) e2).mp htail
          constructor
          · intro h
            simp only [Option.or] at h
            cases h
            refine ⟨j + 1, by simpa using hj, ?_, ?_, ?_⟩
            · rw [List.getD_cons_succ]
              exact hkj
            · rw [List.getD_cons_succ]
              rw [hej]
              have : idx + 1 + j = idx + (j + 1) := by omega
              rw [this]
            · intro i hi
              cases i with
              | zero => omega
              | succ i2 =>
                  rw [List.getD_cons_succ]
                  exact hlast i2 (by omega)
          · rintro ⟨j2, hj2, hkj2, hej2, hlast2⟩
            cases j2 with
            | zero =>
                exfalso
                exact hlast2 (j + 1) (Nat.succ_pos j)
                  (by rw [List.getD_cons_succ]; exact hkj)
            | succ j3 =>
                rw [List.getD_cons_succ] at hkj2 hej2
                have hj3 : j = j3 := by
                  rcases lt_trichotomy j j3 with hlt | heq | hgt
                  · exact absurd hkj2 (hlast j3 hlt)
                  · exact heq
                  · exfalso
                    exact hlast2 (j + 1) (by omega)
                      (by rw [List.getD_cons_succ]; exact hkj)
                subst hj3
                simp only [Option.or]
                rw [hej2, hej]
                have : idx + 1 + j = idx + (j + 1) := by omega
                rw [this]
      | none =>
          constructor
          · intro h
            simp only [Option.or] at h
            by_cases hk : rowKey ki row = some k
            · rw [if_pos hk] at h
              cases h
              refine ⟨0, by simp, by simpa using hk, by simp, ?_⟩
              intro i hi
              cases i with
              | zero => omega
              | succ i2 =>
                  rw [List.getD_cons_succ]
                  exact (dictLookup_snapEntries_none_iff headers ki k rest (idx + 1)).mp
                    htail i2
            · rw [if_neg hk] at h
              cases h
          · rintro ⟨j, hj, hkj, hej, hlast⟩
            cases j with
            | zero =>
                rw [List.getD_cons_zero] at hkj hej
                simp [Option.or, hkj, hej]
            | succ j2 =>
                exfalso
                rw [List.getD_cons_succ] at hkj
                exact (dictLookup_snapEntries_none_iff headers ki k rest (idx + 1)).mp
                  htail j2 hkj

/-! ### Row-update fold lemmas -/

theorem getD_set_self (l : List α) (i : ℕ) (v d : α) (h : i < l.length) :
    (l.set i v).getD i d = v := by
  rw [List.getD_eq_getElem?_getD, List.getElem?_set_self h]
  rfl

theorem getD_set_ne (l : List α) (i j : ℕ) (v d : α) (h : i ≠ j) :
    (l.set i v).getD j d = l.getD j d := by
  rw [List.getD_eq_getElem?_getD, List.getElem?_set_ne h, ← List.getD_eq_getElem?_getD]

theorem foldl_set_length (U : List UpdateOp) :
    ∀ t : List (List String),
      (U.foldl (fun s op => s.set (op.row_index - 2) op.data) t).length = t.length := by
  induction U with
  | nil => intro t; rfl
  | cons op rest ih =>
      intro t
      rw [List.foldl_cons, ih]
      simp

/-- Updating data rows (all positions at least 2) leaves the header row in
place and acts on the tail with 0-based index `row_index - 2`. -/
theorem foldl_setRow_cons :
    ∀ (U : List UpdateOp) (h0 : List String) (t : List (List String)),
      (∀ op ∈ U, 2 ≤ op.row_index) →
      U.foldl (fun s op => setRow s op.row_index op.data) (h0 :: t)
        = h0 :: U.foldl (fun s op => s.set (op.row_index - 2) op.data) t := by
  intro U
  induction U with
  | nil => intro h0 t _; rfl
  | cons op rest ih =>
      intro h0 t hU
      rw [List.foldl_cons, List.foldl_cons]
      have h2 : 2 ≤ op.row_index := hU op (List.mem_cons_self op rest)
      have hset : setRow (h0 :: t) op.row_index op.data
          = h0 :: t.set (op.row_index - 2) op.data := by
        unfold setRow
        have hidx : op.row_index - 1 = (op.row_index - 2) + 1 := by omega
        rw [hidx]
        rfl
      rw [hset]
      exact ih h0 (t.set (op.row_index - 2) op.data)
        (fun op2 hop2 => hU op2 (List.mem_cons_of_mem op hop2))

/-- Updates landing inside the original rows never touch appended rows. -/
theorem foldl_set_append :
    ∀ (U : List UpdateOp) (t ins : List (List String)),
      (∀ op ∈ U, op.row_index - 2 < t.length) →
      U.foldl (fun s op => s.set (op.row_index - 2) op.data) (t ++ ins)
        = (U.foldl (fun s op => s.set (op.row_index - 2) op.data) t) ++ ins := by
  intro U
  induction U with
  | nil => intro t ins _; rfl
  | cons op rest ih =>
      intro t ins hU
      rw [List.foldl_cons, List.foldl_cons,
        List.set_append_left _ _ (hU op (List.mem_cons_self op rest))]
      exact ih _ ins (fun op2 hop2 => by
        rw [List.length_set]
        exact hU op2 (List.mem_cons_of_mem op hop2))

theorem foldl_set_getD_untouched :
    ∀ (U : List UpdateOp) (t : List (List String)) (j : ℕ),
      (∀ op ∈ U, op.row_index - 2 ≠ j) →
      (U.foldl (fun s op => s.set (op.row_index - 2) op.data) t).getD j []
        = t.getD j [] := by
  intro U
  induction U with
  | nil => intro t j _; rfl
  | cons op rest ih =>
      intro t j hU
      rw [List.foldl_cons, ih _ j (fun op2 h => hU op2 (List.mem_cons_of_mem op h))]
      exact getD_set_ne t _ j op.data [] (hU op (List.mem_cons_self op rest))

/-- After the update fold, a position holds either its original row or the
data of some update op recorded for that position. -/
theorem foldl_set_getD_cases :
    ∀ (U : List UpdateOp) (t : List (List String)) (j : ℕ),
      (U.foldl (fun s op => s.set (op.row_index - 2) op.data) t).getD j [] = t.getD j []
      ∨ ∃ op ∈ U, op.row_index - 2 = j
          ∧ (U.foldl (fun s op => s.set (op.row_index - 2) op.data) t).getD j []
              = op.data := by
  intro U
  induction U with
  | nil => intro t j; exact Or.inl rfl
  | cons op rest ih =>
      intro t j
      rw [List.foldl_cons]
      rcases ih (t.set (op.row_index - 2) op.data) j with h | ⟨op2, hop2, hpos, hval⟩
      · by_cases hj : op.row_index - 2 = j
        · by_cases hl : j < t.length
          · right
            refine ⟨op, List.mem_cons_self op rest, hj, ?_⟩
            rw [h, hj]
            exact getD_set_self t j op.data [] hl
          · left
            rw [h, hj, List.set_eq_of_length_le (by omega)]
        · left
          rw [h]
          exact getD_set_ne t _ j op.data [] hj
      · right
        exact ⟨op2, List.mem_cons_of_mem op hop2, hpos, hval⟩

/-- After the update fold, a position targeted by at least one op — all ops
at that position carrying the same data — holds exactly that data. -/
theorem foldl_set_getD_of_mem :
    ∀ (U : List UpdateOp) (t : List (List String)) (j : ℕ) (d : List String),
      j < t.length →
      (∃ op ∈ U, op.row_index - 2 = j) →
      (∀ op ∈ U, op.row_index - 2 = j → op.data = d) →
      (U.foldl (fun s op => s.set (op.row_index - 2) op.data) t).getD j [] = d := by
  intro U
  induction U with
  | nil =>
      intro t j d _ hex _
      obtain ⟨op, hop, -⟩ := hex
      exact absurd hop (List.not_mem_nil op)
  | cons op rest ih =>
      intro t j d hlen hex hall
      rw [List.foldl_cons]
      by_cases hj : op.row_index - 2 = j
      · have hdata : op.data = d := hall op (List.mem_cons_self op rest) hj
        by_cases hrest : ∃ op2 ∈ rest, op2.row_index - 2 = j
        · exact ih _ j d (by rw [List.length_set]; exact hlen) hrest
            (fun op2 h2 hp => hall op2 (List.mem_cons_of_mem op h2) hp)
        · push_neg at hrest
          rw [foldl_set_getD_untouched rest _ j hrest, hj, hdata]
          exact getD_set_self t j d [] hlen
      · have hex2 : ∃ op2 ∈ rest, op2.row_index - 2 = j := by
          obtain ⟨op2, hop2, hp⟩ := hex
          rcases List.mem_cons.mp hop2 with heq | h2
          · exact absurd (heq ▸ hp) hj
          · exact ⟨op2, h2, hp⟩
        exact ih _ j d (by rw [List.length_set]; exact hlen) hex2
          (fun op2 h2 hp => hall op2 (List.mem_cons_of_mem op h2) hp)

/-! ### `_row_needs_update` against a row's own snapshot image -/

theorem dictLookup_eq_none_of_not_mem_keys (l : List (String × α)) (k : String)
    (h : k ∉ l.map Prod.fst) : dictLookup l k = none := by
  induction l with
  | nil => rfl
  | cons p rest ih =>
      obtain ⟨k2, v⟩ := p
      simp only [List.map_cons, List.mem_cons, not_or] at h
      rw [dictLookup_cons, ih h.2]
      simp [h.1]

theorem zip_dictLookup :
    ∀ (headers r : List String), headers.Nodup → r.length = headers.length →
      ∀ i, i < headers.length →
        dictLookup (headers.zip r) (headers.getD i "") = some (r.getD i "") := by
  intro headers
  induction headers with
  | nil =>
      intro r _ _ i hi
      exact absurd hi (by simp)
  | cons h hs ih =>
      intro r hnd hlen i hi
      cases r with
      | nil => simp at hlen
      | cons n ns =>
          have hlen2 : ns.length = hs.length := by
            simpa using hlen
          rw [List.zip_cons_cons]
          cases i with
          | zero =>
              rw [List.getD_cons_zero, List.getD_cons_zero, dictLookup_cons]
              have hnotin : h ∉ (hs.zip ns).map Prod.fst := by
                intro hmem
                rw [List.map_fst_zip hs ns (by omega)] at hmem
                exact (List.nodup_cons.mp hnd).1 hmem
              rw [dictLookup_eq_none_of_not_mem_keys _ _ hnotin]
              simp
          | succ i2 =>
              rw [List.getD_cons_succ, List.getD_cons_succ, dictLookup_cons,
                ih ns (List.nodup_cons.mp hnd).2 hlen2 i2 (by simpa using hi)]

theorem dictLookupStr_zip (headers r : List String) (hnd : headers.Nodup)
    (hlen : r.length = headers.length) (i : ℕ) (hi : i < headers.length) :
    dictLookupStr (headers.zip r) (headers.getD i "") = r.getD i "" := by
  unfold dictLookupStr
  rw [zip_dictLookup headers r hnd hlen i hi]
  rfl

theorem row_needs_update_aux_false (E : List (String × String)) :
    ∀ (hs ns : List String), hs.length = ns.length →
      (∀ i, i < hs.length → dictLookupStr E (hs.getD i "") = ns.getD i "") →
      row_needs_update_aux E hs ns = false := by
  intro hs
  induction hs with
  | nil => intro ns _ _; rfl
  | cons h ht ih =>
      intro ns hlen hp
      cases ns with
      | nil => simp at hlen
      | cons n nt =>
          show (decide (n ≠ dictLookupStr E h) || row_needs_update_aux E ht nt) = false
          have h0 := hp 0 (by simp)
          rw [List.getD_cons_zero, List.getD_cons_zero] at h0
          have hrec := ih nt (by simpa using hlen) (fun i hi => by
            have h1 := hp (i + 1) (by simpa using hi)
            rwa [List.getD_cons_succ, List.getD_cons_succ] at h1)
          rw [h0, hrec]
          simp

/-- A full-length row never differs from its own header-zipped dict image
(headers without duplicates): the no-op detection of `_row_needs_update` is
reflexive. -/
theorem row_needs_update_zip_self (headers r : List String) (hnd : headers.Nodup)
    (hlen : r.length = headers.length) :
    row_needs_update r (headers.zip r) headers = false := by
  unfold row_needs_update
  exact row_needs_update_aux_false (headers.zip r) headers r hlen.symm
    (fun i hi => dictLookupStr_zip headers r hnd hlen i hi)

/-! ### Assembling the idempotence round trip -/

theorem rowKey_some_getD (ki : ℕ) (row : List String) (k : String)
    (h : rowKey ki row = some k) : row.getD ki "" = k := by
  unfold rowKey at h
  by_cases hc : ki < row.length ∧ row.getD ki "" ≠ ""
  · rw [if_pos hc] at h
    cases h
    rfl
  · rw [if_neg hc] at h
    cases h

theorem getD_eq_get (l : List α) (n : ℕ) (d : α) (h : n < l.length) :
    l.getD n d = l.get ⟨n, h⟩ := by
  rw [List.getD_eq_getElem?_getD, List.getElem?_eq_getElem h]
  rfl

theorem getD_eq_of_le (l : List α) (n : ℕ) (d : α) (h : l.length ≤ n) :
    l.getD n d = d := by
  rw [List.getD_eq_getElem?_getD, List.getElem?_eq_none h]
  rfl

theorem getD_mem (l : List α) (n : ℕ) (d : α) (h : n < l.length) : l.getD n d ∈ l := by
  rw [getD_eq_get l n d h]
  exact List.get_mem l n h

theorem getD_inj_of_nodup_map (l : List (List String)) (g : List String → String)
    (hnd : (l.map g).Nodup) (i j : ℕ) (hi : i < l.length) (hj : j < l.length)
    (heq : g (l.getD i []) = g (l.getD j [])) : i = j := by
  rw [getD_eq_get l i [] hi, getD_eq_get l j [] hj] at heq
  have hmi : i < (l.map g).length := by simpa using hi
  have hmj : j < (l.map g).length := by simpa using hj
  have hg1 : (l.map g).get ⟨i, hmi⟩ = g (l.get ⟨i, hi⟩) := by
    simp [List.get_eq_getElem, List.getElem_map]
  have hg2 : (l.map g).get ⟨j, hmj⟩ = g (l.get ⟨j, hj⟩) := by
    simp [List.get_eq_getElem, List.getElem_map]
  have hfin := List.nodup_iff_injective_get.mp hnd
    (show (l.map g).get ⟨i, hmi⟩ = (l.map g).get ⟨j, hmj⟩ by rw [hg1, hg2]; exact heq)
  exact congrArg Fin.val hfin

theorem snapEntries_append (headers : List String) (ki : ℕ) :
    ∀ (a b : List (List String)) (idx : ℕ),
      snapEntries headers ki (a ++ b) idx
        = snapEntries headers ki a idx ++ snapEntries headers ki b (idx + a.length) := by
  intro a
  induction a with
  | nil =>
      intro b idx
      simp [snapEntries]
  | cons row rest ih =>
      intro b idx
      rw [List.cons_append, snapEntries_cons, snapEntries_cons, ih]
      have hidx : idx + 1 + rest.length = idx + (rest.length + 1) := by omega
      cases h : rowKey ki row <;> simp [hidx, List.append_assoc, List.length_cons]

/-- The sheet contents after a fully successful execution of a plan whose
update positions all land inside the existing data rows: the header row
stays, updates hit their rows at 0-based index `row_index - 2`, inserts are
appended after the existing rows. -/
theorem applyPlan_closed (headers : List String) (srows ins : List (List String))
    (upd : List UpdateOp)
    (hpos : ∀ op ∈ upd, 2 ≤ op.row_index ∧ op.row_index - 2 < srows.length) :
    applyPlan (headers :: srows) ⟨ins, upd, headers⟩
      = headers
          :: ((upd.foldl (fun s op => s.set (op.row_index - 2) op.data) srows) ++ ins) := by
  have h0 : applyPlan (headers :: srows) ⟨ins, upd, headers⟩
      = upd.foldl (fun s op => setRow s op.row_index op.data)
          ((if ins ≠ [] ∨ upd ≠ [] then ensure_headers (headers :: srows) headers
            else headers :: srows) ++ ins) := rfl
  rw [h0]
  by_cases hg : ins ≠ [] ∨ upd ≠ []
  · rw [if_pos hg]
    have hens : ensure_headers (headers :: srows) headers = headers :: srows := by
      simp [ensure_headers]
    rw [hens, List.cons_append,
      foldl_setRow_cons upd headers (srows ++ ins) (fun op hop => (hpos op hop).1),
      foldl_set_append upd srows ins (fun op hop => (hpos op hop).2)]
  · rw [if_neg hg]
    push_neg at hg
    obtain ⟨h1, h2⟩ := hg
    subst h1
    subst h2
    simp

/-- Core of the idempotence round trip: after executing the plan, every
batch row's key hits the fresh snapshot at an entry whose stored contents
make `_row_needs_update` answer false. -/
theorem c9_central (headers : List String) (srows rows : List (List String)) (key : String)
    (hnd : headers.Nodup) (hkey : key ∈ headers)
    (hlen : ∀ r2 ∈ rows, r2.length = headers.length)
    (hknd : (rows.map (fun r2 => r2.getD (headers.indexOf key) "")).Nodup)
    (hkne : ∀ r2 ∈ rows, r2.getD (headers.indexOf key) "" ≠ "")
    (r : List String) (hr : r ∈ rows) :
    ∃ entry, dictLookup
        (get_existing_data
          (applyPlan (headers :: srows)
            (plan_upsert_operations (headers :: rows)
              (get_existing_data (headers :: srows) key) key)) key)
        (r.getD (headers.indexOf key) "") = some entry
      ∧ row_needs_update r entry.data headers = false := by
  have hki : headers.indexOf key < headers.length := List.indexOf_lt_length.mpr hkey
  have hcont : headers.contains key = true := List.elem_iff.mpr hkey
  have hsnap : get_existing_data (headers :: srows) key
      = snapEntries headers (headers.indexOf key) srows 2 := by
    have h0 : get_existing_data (headers :: srows) key
        = if headers.contains key then
            snapEntries headers (headers.indexOf key) srows 2
          else [] := rfl
    rw [h0, if_pos hcont]
  rw [hsnap, plan_upsert_operations_eq]
  have hrowKey : ∀ r2 ∈ rows, rowKey (headers.indexOf key) r2
      = some (r2.getD (headers.indexOf key) "") := by
    intro r2 hr2
    unfold rowKey
    rw [if_pos ⟨by rw [hlen r2 hr2]; exact hki, hkne r2 hr2⟩]
  have hInj : ∀ r1 ∈ rows, ∀ r2 ∈ rows,
      r1.getD (headers.indexOf key) "" = r2.getD (headers.indexOf key) "" → r1 = r2 :=
    List.inj_on_of_nodup_map hknd
  set I := rows.filter (fun r2 =>
      (dictLookup (snapEntries headers (headers.indexOf key) srows 2)
        (r2.getD (headers.indexOf key) "")).isNone) with hI
  set U := rows.filterMap (fun r2 =>
      match dictLookup (snapEntries headers (headers.indexOf key) srows 2)
          (r2.getD (headers.indexOf key) "") with
      | some entry =>
          if row_needs_update r2 entry.data headers then
            some (⟨entry.row_index, r2⟩ : UpdateOp)
          else none
      | none => none) with hU
  have hop_shape : ∀ op ∈ U, ∃ r2 ∈ rows, ∃ j2, j2 < srows.length
      ∧ op = ⟨2 + j2, r2⟩
      ∧ rowKey (headers.indexOf key) (srows.getD j2 [])
          = some (r2.getD (headers.indexOf key) "")
      ∧ (∀ i, j2 < i → rowKey (headers.indexOf key) (srows.getD i [])
          ≠ some (r2.getD (headers.indexOf key) ""))
      ∧ row_needs_update r2 (headers.zip (srows.getD j2 [])) headers = true := by
    intro op hop
    rw [hU] at hop
    obtain ⟨r2, hr2, hf⟩ := List.mem_filterMap.mp hop
    cases hl2 : dictLookup (snapEntries headers (headers.indexOf key) srows 2)
        (r2.getD (headers.indexOf key) "") with
    | none =>
        rw [hl2] at hf
        simp at hf
    | some entry =>
        rw [hl2] at hf
        dsimp only at hf
        by_cases hu : row_needs_update r2 entry.data headers = true
        · rw [if_pos hu] at hf
          cases hf
          obtain ⟨j2, hj2, hkj2, hej2, hlast2⟩ :=
            (dictLookup_snapEntries_some_iff headers (headers.indexOf key)
              (r2.getD (headers.indexOf key) "") srows 2 entry).mp hl2
          refine ⟨r2, hr2, j2, hj2, by rw [hej2], hkj2, hlast2, ?_⟩
          rw [hej2] at hu
          exact hu
        · rw [if_neg hu] at hf
          cases hf
  have hposU : ∀ op ∈ U, 2 ≤ op.row_index ∧ op.row_index - 2 < srows.length := by
    intro op hop
    obtain ⟨r2, -, j2, hj2, hopeq, -, -, -⟩ := hop_shape op hop
    rw [hopeq]
    constructor
    · show 2 ≤ 2 + j2
      omega
    · show 2 + j2 - 2 < srows.length
      omega
  rw [applyPlan_closed headers srows I U hposU]
  set q := U.foldl (fun s op => s.set (op.row_index - 2) op.data) srows with hq
  have hqlen : q.length = srows.length := by
    rw [hq]
    exact foldl_set_length U srows
  have hsnap2 : get_existing_data (headers :: (q ++ I)) key
      = snapEntries headers (headers.indexOf key) (q ++ I) 2 := by
    have h0 : get_existing_data (headers :: (q ++ I)) key
        = if headers.contains key then
            snapEntries headers (headers.indexOf key) (q ++ I) 2
          else [] := rfl
    rw [h0, if_pos hcont]
  rw [hsnap2, snapEntries_append, dictLookup_append]
  cases hB : dictLookup (snapEntries headers (headers.indexOf key) srows 2)
      (r.getD (headers.indexOf key) "") with
  | none =>
      have hrI : r ∈ I := by
        rw [hI]
        exact List.mem_filter.mpr ⟨hr, by rw [hB]; rfl⟩
      obtain ⟨⟨jA, hjA⟩, hgA⟩ := List.mem_iff_get.mp hrI
      have hgDA : I.getD jA [] = r := by
        rw [getD_eq_get I jA [] hjA]
        exact hgA
      have hInd : (I.map (fun r2 => r2.getD (headers.indexOf key) "")).Nodup := by
        rw [hI]
        exact List.Nodup.sublist (List.Sublist.map _ (List.filter_sublist rows)) hknd
      have hlookI : dictLookup (snapEntries headers (headers.indexOf key) I (2 + q.length))
          (r.getD (headers.indexOf key) "")
          = some ⟨2 + q.length + jA, headers.zip r⟩ := by
        rw [dictLookup_snapEntries_some_iff]
        refine ⟨jA, hjA, ?_, ?_, ?_⟩
        · rw [hgDA]
          exact hrowKey r hr
        · rw [hgDA]
        · intro i hi hcontra
          by_cases hil : i < I.length
          · have h2 : i = jA := getD_inj_of_nodup_map I _ hInd i jA hil hjA (by
              rw [hgDA]
              exact rowKey_some_getD _ _ _ hcontra)
            omega
          · rw [getD_eq_of_le I i [] (by omega), rowKey_nil] at hcontra
            exact Option.noConfusion hcontra
      refine ⟨⟨2 + q.length + jA, headers.zip r⟩, ?_,
        row_needs_update_zip_self headers r hnd (hlen r hr)⟩
      rw [hlookI]
      rfl
  | some e =>
      obtain ⟨j, hj, hkj, hej, hlast⟩ :=
        (dictLookup_snapEntries_some_iff headers (headers.indexOf key)
          (r.getD (headers.indexOf key) "") srows 2 e).mp hB
      have hINone : dictLookup (snapEntries headers (headers.indexOf key) I (2 + q.length))
          (r.getD (headers.indexOf key) "") = none := by
        rw [dictLookup_snapEntries_none_iff]
        intro j2 hcontra
        by_cases hil : j2 < I.length
        · have hmem : I.getD j2 [] ∈ I := getD_mem I j2 [] hil
          rw [hI] at hmem
          have hpred := (List.mem_filter.mp hmem).2
          have hkeq := rowKey_some_getD _ _ _ hcontra
          rw [hkeq, hB] at hpred
          cases hpred
        · rw [getD_eq_of_le I j2 [] (by omega), rowKey_nil] at hcontra
          exact Option.noConfusion hcontra
      have hop_at_j : ∀ op ∈ U, op.row_index - 2 = j → op.data = r := by
        intro op hop hpos2
        obtain ⟨r2, hr2, j2, hj2, hopeq, hkj2, hlast2, hnu2⟩ := hop_shape op hop
        rw [hopeq] at hpos2
        dsimp at hpos2
        have hj2j : j2 = j := by omega
        subst hj2j
        have hkeys : r2.getD (headers.indexOf key) "" = r.getD (headers.indexOf key) "" :=
          Option.some_inj.mp (hkj2.symm.trans hkj)
        have hr2r : r2 = r := hInj r2 hr2 r hr hkeys
        rw [hopeq]
        exact hr2r
      have hop_data_key : ∀ op ∈ U,
          rowKey (headers.indexOf key) op.data
              = some (r.getD (headers.indexOf key) "") → op.data = r := by
        intro op hop hk2
        obtain ⟨r2, hr2, j2, hj2, hopeq, -, -, -⟩ := hop_shape op hop
        have hd : op.data = r2 := by rw [hopeq]
        rw [hd] at hk2 ⊢
        have hkey2 : rowKey (headers.indexOf key) r2
            = some (r2.getD (headers.indexOf key) "") := hrowKey r2 hr2
        have hkeys : r2.getD (headers.indexOf key) "" = r.getD (headers.indexOf key) "" :=
          Option.some_inj.mp (hkey2.symm.trans hk2)
        exact hInj r2 hr2 r hr hkeys
      have hlastq : ∀ i, j < i →
          rowKey (headers.indexOf key) (q.getD i [])
            ≠ some (r.getD (headers.indexOf key) "") := by
        intro i hgt hcontra
        by_cases hil : i < srows.length
        · rcases foldl_set_getD_cases U srows i with hunt | ⟨op, hop, hpos2, hval⟩
          · rw [hq, hunt] at hcontra
            exact hlast i hgt hcontra
          · rw [hq, hval] at hcontra
            have hdata : op.data = r := hop_data_key op hop hcontra
            obtain ⟨r2, hr2, j2, hj2, hopeq, hkj2, hlast2, hnu2⟩ := hop_shape op hop
            have hr2r : r2 = r := by
              have h1 : op.data = r2 := by rw [hopeq]
              rw [h1] at hdata
              exact hdata
            subst hr2r
            have hj2j : j2 = j := by
              rcases lt_trichotomy j2 j with hlt | heq | hgt2
              · exact absurd hkj (hlast2 j hlt)
              · exact heq
              · exact absurd hkj2 (hlast j2 hgt2)
            subst hj2j
            rw [hopeq] at hpos2
            dsimp at hpos2
            omega
        · rw [getD_eq_of_le q i [] (by omega), rowKey_nil] at hcontra
          exact Option.noConfusion hcontra
      by_cases hNU : row_needs_update r e.data headers = true
      · have hopmem : (⟨e.row_index, r⟩ : UpdateOp) ∈ U := by
          rw [hU]
          refine List.mem_filterMap.mpr ⟨r, hr, ?_⟩
          rw [hB]
          dsimp only
          rw [if_pos hNU]
        have hqj : q.getD j [] = r := by
          rw [hq]
          refine foldl_set_getD_of_mem U srows j r hj ⟨⟨e.row_index, r⟩, hopmem, ?_⟩
            (fun op hop hp => hop_at_j op hop hp)
          rw [hej]
          dsimp only
          omega
        have hlookq : dictLookup (snapEntries headers (headers.indexOf key) q 2)
            (r.getD (headers.indexOf key) "")
            = some ⟨2 + j, headers.zip (q.getD j [])⟩ := by
          rw [dictLookup_snapEntries_some_iff]
          exact ⟨j, by rw [hqlen]; exact hj, by rw [hqj]; exact hrowKey r hr, rfl, hlastq⟩
        refine ⟨⟨2 + j, headers.zip (q.getD j [])⟩, ?_, ?_⟩
        · rw [hINone, hlookq]
          rfl
        · rw [hqj]
          exact row_needs_update_zip_self headers r hnd (hlen r hr)
      · have hnotop : ∀ op ∈ U, op.row_index - 2 ≠ j := by
          intro op hop hpos2
          have hdata := hop_at_j op hop hpos2
          obtain ⟨r2, hr2, j2, hj2, hopeq, hkj2, hlast2, hnu2⟩ := hop_shape op hop
          rw [hopeq] at hpos2
          dsimp at hpos2
          have hj2j : j2 = j := by omega
          subst hj2j
          have hr2r : r2 = r := by
            have h1 : op.data = r2 := by rw [hopeq]
            rw [h1] at hdata
            exact hdata
          rw [hr2r] at hnu2
          have hed : row_needs_update r e.data headers = true := by
            rw [hej]
            exact hnu2
          exact hNU hed
        have hqj : q.getD j [] = srows.getD j [] := by
          rw [hq]
          exact foldl_set_getD_untouched U srows j hnotop
        have hNUf : row_needs_update r e.data headers = false := by
          simpa using hNU
        have hlookq : dictLookup (snapEntries headers (headers.indexOf key) q 2)
            (r.getD (headers.indexOf key) "")
            = some ⟨2 + j, headers.zip (q.getD j [])⟩ := by
          rw [dictLookup_snapEntries_some_iff]
          exact ⟨j, by rw [hqlen]; exact hj, by rw [hqj]; exact hkj, rfl, hlastq⟩
        refine ⟨⟨2 + j, headers.zip (q.getD j [])⟩, ?_, ?_⟩
        · rw [hINone, hlookq]
          rfl
        · rw [hqj]
          have hedata : e.data = headers.zip (srows.getD j []) := by rw [hej]
          rw [← hedata]
          exact hNUf

/-- C9, counterexample: a batch row with an EMPTY key is planned as an
insert, the written row is invisible to the next snapshot (empty keys are
skipped), and re-planning against the post-write snapshot plans the very
same insert again — the round trip is NOT empty, contradicting the claim as
universally stated. -/
theorem c9_counterexample :
    (plan_upsert_operations [["id", "val"], ["", "x"]]
        (get_existing_data
          (applyPlan [["id", "val"]]
            (plan_upsert_operations [["id", "val"], ["", "x"]]
              (get_existing_data [["id", "val"]] "id") "id"))
          "id")
        "id").insert = [["", "x"]] := rfl

/-- C9, amended: planning is deterministic (a pure function of snapshot and
batch), and for a well-formed batch — duplicate-free headers containing the
key column, full-length rows, non-empty pairwise-distinct key values —
whose remote sheet carries the same header row, applying the plan's writes
and re-planning against the re-read snapshot yields an empty plan: every
row's key then hits the snapshot with an identical string representation of
every column and is skipped as a no-op. -/
theorem c9_spec (headers : List String) (srows rows : List (List String)) (key : String)
    (hnd : headers.Nodup) (hkey : key ∈ headers)
    (hlen : ∀ r2 ∈ rows, r2.length = headers.length)
    (hknd : (rows.map (fun r2 => r2.getD (headers.indexOf key) "")).Nodup)
    (hkne : ∀ r2 ∈ rows, r2.getD (headers.indexOf key) "" ≠ "") :
    plan_upsert_operations (headers :: rows)
      (get_existing_data
        (applyPlan (headers :: srows)
          (plan_upsert_operations (headers :: rows)
            (get_existing_data (headers :: srows) key) key)) key) key
    = { insert := [], update := [], headers := headers } := by
  rw [plan_upsert_operations_eq]
  have hcent := c9_central headers srows rows key hnd hkey hlen hknd hkne
  have hfil : rows.filter (fun r2 =>
      (dictLookup
        (get_existing_data
          (applyPlan (headers :: srows)
            (plan_upsert_operations (headers :: rows)
              (get_existing_data (headers :: srows) key) key)) key)
        (r2.getD (headers.indexOf key) "")).isNone) = [] := by
    rw [List.filter_eq_nil_iff]
    intro r2 hr2
    obtain ⟨entry, he, -⟩ := hcent r2 hr2
    simp only [he]
    simp
  have hfm : rows.filterMap (fun r2 =>
      match dictLookup
          (get_existing_data
            (applyPlan (headers :: srows)
              (plan_upsert_operations (headers :: rows)
                (get_existing_data (headers :: srows) key) key)) key)
          (r2.getD (headers.indexOf key) "") with
      | some entry =>
          if row_needs_update r2 entry.data headers then
            some (⟨entry.row_index, r2⟩ : UpdateOp)
          else none
      | none => none) = [] := by
    rw [List.filterMap_eq_nil_iff]
    intro r2 hr2
    obtain ⟨entry, he, hnu⟩ := hcent r2 hr2
    rw [he]
    dsimp only
    simp [hnu]
  rw [hfil, hfm]

/-- C9 witness: a concrete one-row batch updating an existing remote row;
the round trip re-plan is empty. -/
theorem c9_witness :
    plan_upsert_operations [["id", "val"], ["A", "x"]]
      (get_existing_data
        (applyPlan [["id", "val"], ["A", "y"]]
          (plan_upsert_operations [["id", "val"], ["A", "x"]]
            (get_existing_data [["id", "val"], ["A", "y"]] "id") "id")) "id") "id"
    = { insert := [], update := [], headers := ["id", "val"] } :=
  c9_spec ["id", "val"] [["A", "y"]] [["A", "x"]] "id"
    (by decide) (by decide) (by decide) (by decide) (by decide)

end Pep
